import Mathlib

/-!
Verification of the prose-critique pipeline against its specification.

This file is a shallow embedding, in Lean 4, of the deterministic core of
the repository: the JSON-recovery routine `extract_json`, the tolerant
coercion `_dict_to_primary`, the repetition / readability / coreference
heuristics, the LLM client's cache-and-retry loop, and the orchestrator's
stage sequence.  Each definition mirrors the corresponding Python function
(`src/modules/llm_client.py`, `src/modules/agents/primary_analyzer.py`,
`src/modules/utils/heuristics.py`, `src/modules/utils/segmentation.py`,
`src/modules/orchestrator.py`).  Conventions used throughout:

* Python strings are Lean `String`s handled as code-point lists; the
  regular expressions of the source are implemented character by character
  with the same matching semantics (greedy / non-greedy, word boundaries).
  The `\w` class is modelled for ASCII and Cyrillic letters, the ranges
  actually exercised by the repository.
* Python floats are modelled as exact rationals (`Rat`); `round(x, n)` is
  modelled as decimal rounding of the exact rational.
* Fallible Python code (statements that can raise) is modelled in the
  `Except` monad; total helpers such as `_safe_int` stay plain functions.
* The external services (the generative endpoint, the statistical language
  classifier, wall-clock time) enter the model as explicit oracle
  parameters, mirroring the call boundary of the source.
-/

/-! ## Character and string utilities -/

/-- Whitespace recognised by Python's `str.strip` and the regex class \s
(ASCII part: space, tab, newline, carriage return, vertical tab, form feed). -/
def isPyWs (c : Char) : Bool :=
  c = ' ' || c = '\t' || c = '\n' || c = '\r' || c = '\x0b' || c = '\x0c'

/-- Whitespace recognised by Python's json decoder (space, tab, newline, CR only). -/
def isJsonWs (c : Char) : Bool :=
  c = ' ' || c = '\t' || c = '\n' || c = '\r'

def skipJsonWs (l : List Char) : List Char := l.dropWhile isJsonWs

/-- Python str.strip on the code-point list. -/
def pyStripL (l : List Char) : List Char :=
  ((l.dropWhile isPyWs).reverse.dropWhile isPyWs).reverse

/-- Python str.strip. -/
def pyStrip (s : String) : String := String.mk (pyStripL s.toList)

def isAsciiDigitC (c : Char) : Bool := '0' ≤ c && c ≤ '9'

def isHexDigitC (c : Char) : Bool :=
  isAsciiDigitC c || ('a' ≤ c && c ≤ 'f') || ('A' ≤ c && c ≤ 'F')

/-- Word characters of the regex class \w as exercised by the repository:
ASCII letters, digits, underscore, and Cyrillic letters. -/
def isWordChar (c : Char) : Bool :=
  c.isAlphanum || c = '_' ||
  (0x410 ≤ c.val && c.val ≤ 0x44F) || c.val = 0x401 || c.val = 0x451

/-- Match a literal character sequence, returning the remainder. -/
def dropLit : List Char → List Char → Option (List Char)
  | [], rest => some rest
  | _ :: _, [] => none
  | c :: cs, d :: rest => if c = d then dropLit cs rest else none

/-- Maximal runs of characters sharing the value of a class predicate,
tagged with that value.  Used to model regex scans over alternating
whitespace / non-whitespace runs. -/
def chunkBy (p : Char → Bool) : List Char → List (Bool × List Char)
  | [] => []
  | c :: rest =>
    match chunkBy p rest with
    | [] => [(p c, [c])]
    | (b, run) :: more =>
      if p c = b then (b, c :: run) :: more else (p c, [c]) :: (b, run) :: more

/-- Python str.lower, on the character ranges the repository exercises
(ASCII; Cyrillic capitals are mapped to their lowercase forms). -/
def pyLowerChar (c : Char) : Char :=
  if 'A' ≤ c ∧ c ≤ 'Z' then Char.ofNat (c.val.toNat + 32)
  else if 0x410 ≤ c.val ∧ c.val ≤ 0x42F then Char.ofNat (c.val.toNat + 32)
  else if c.val = 0x401 then Char.ofNat 0x451
  else c

def pyLower (s : String) : String := String.mk (s.toList.map pyLowerChar)

/-- The word tokens of a string: re.findall of one-or-more word characters
(the \b anchors of the source pattern are vacuous around a maximal run). -/
def findWords (s : String) : List String :=
  (chunkBy isWordChar s.toList).filterMap fun br =>
    if br.1 then some (String.mk br.2) else none

def strTake (s : String) (n : Nat) : String := String.mk (s.toList.take n)

/-! ## JSON validity (the observable behaviour of json.loads used by the source)

The source only ever uses `json.loads` to test whether a candidate string
is valid JSON (exceptions are caught and drive the control flow), so the
model is a validity checker for the grammar `json.loads` accepts: standard
JSON plus the NaN/Infinity literals Python allows by default.  The parser
is written with a fuel argument; the fuel supplied by `jsonParses` exceeds
the input length and hence never runs out on meaningful input. -/

/-- Consume a JSON string body (after the opening quote), including escapes;
control characters are rejected as in the decoder's default strict mode. -/
def pStringBody : List Char → Option (List Char)
  | [] => none
  | '"' :: rest => some rest
  | '\\' :: e :: rest =>
    if e = 'u' then
      match rest with
      | a :: b :: c :: d :: rest' =>
        if isHexDigitC a && isHexDigitC b && isHexDigitC c && isHexDigitC d then
          pStringBody rest'
        else none
      | _ => none
    else if e = '"' || e = '\\' || e = '/' || e = 'b' || e = 'f' ||
            e = 'n' || e = 'r' || e = 't' then pStringBody rest
    else none
  | c :: rest => if c.val < 32 then none else pStringBody rest

/-- Consume a JSON number: -?(0|[1-9][0-9]*)(.[0-9]+)?([eE][+-]?[0-9]+)?. -/
def pNumber (l : List Char) : Option (List Char) :=
  let l1 := match l with
    | '-' :: r => r
    | _ => l
  let intRest : Option (List Char) :=
    match l1 with
    | '0' :: r => some r
    | c :: r => if '1' ≤ c ∧ c ≤ '9' then some (r.dropWhile isAsciiDigitC) else none
    | [] => none
  match intRest with
  | none => none
  | some r2 =>
    let fracRest : Option (List Char) :=
      match r2 with
      | '.' :: r =>
        if (r.takeWhile isAsciiDigitC).isEmpty then none
        else some (r.dropWhile isAsciiDigitC)
      | _ => some r2
    match fracRest with
    | none => none
    | some r3 =>
      match r3 with
      | e :: r =>
        if e = 'e' ∨ e = 'E' then
          let r' := match r with
            | '+' :: rr => rr
            | '-' :: rr => rr
            | _ => r
          if (r'.takeWhile isAsciiDigitC).isEmpty then none
          else some (r'.dropWhile isAsciiDigitC)
        else some r3
      | [] => some r3

mutual

/-- Consume one JSON value; the input starts at the value (no leading whitespace). -/
def pValue : Nat → List Char → Option (List Char)
  | 0, _ => none
  | fuel + 1, l =>
    match l with
    | [] => none
    | '{' :: rest => pObj fuel (skipJsonWs rest) true
    | '[' :: rest => pArr fuel (skipJsonWs rest) true
    | '"' :: rest => pStringBody rest
    | 't' :: rest => dropLit ['r', 'u', 'e'] rest
    | 'f' :: rest => dropLit ['a', 'l', 's', 'e'] rest
    | 'n' :: rest => dropLit ['u', 'l', 'l'] rest
    | 'N' :: rest => dropLit ['a', 'N'] rest
    | 'I' :: rest => dropLit ['n', 'f', 'i', 'n', 'i', 't', 'y'] rest
    | '-' :: 'I' :: rest => dropLit ['n', 'f', 'i', 'n', 'i', 't', 'y'] rest
    | _ => pNumber l

/-- Consume object members and the closing brace; `first` is true right after
the opening brace (where an immediate close is legal). -/
def pObj : Nat → List Char → Bool → Option (List Char)
  | 0, _, _ => none
  | fuel + 1, l, first =>
    match l with
    | '}' :: rest => if first then some rest else none
    | '"' :: rest =>
      match pStringBody rest with
      | none => none
      | some r1 =>
        match skipJsonWs r1 with
        | ':' :: r2 =>
          match pValue fuel (skipJsonWs r2) with
          | none => none
          | some r3 =>
            match skipJsonWs r3 with
            | ',' :: r4 => pObj fuel (skipJsonWs r4) false
            | '}' :: r4 => some r4
            | _ => none
        | _ => none
    | _ => none

/-- Consume array elements and the closing bracket. -/
def pArr : Nat → List Char → Bool → Option (List Char)
  | 0, _, _ => none
  | fuel + 1, l, first =>
    match l with
    | ']' :: rest => if first then some rest else none
    | _ =>
      match pValue fuel l with
      | none => none
      | some r1 =>
        match skipJsonWs r1 with
        | ',' :: r2 => pArr fuel (skipJsonWs r2) false
        | ']' :: r2 => some r2
        | _ => none

end

/-- Whether json.loads would accept the string: one value surrounded by
JSON whitespace and nothing else. -/
def jsonParses (s : String) : Bool :=
  match pValue (s.toList.length + 4) (skipJsonWs s.toList) with
  | some rest => (rest.dropWhile isJsonWs).isEmpty
  | none => false

/-! ## extract_json (src/modules/llm_client.py lines 36-98) -/

/-- In a whitespace run known to contain a newline, the suffix after the last
newline: the part the greedy backslash-s-star of the fence pattern does not
consume (it stops at the last newline so the following newline token can match). -/
def afterLastNl (l : List Char) : List Char :=
  (l.reverse.takeWhile (· ≠ '\n')).reverse

/-- Does a fence close at this point: the scanner sits right after a newline,
and after optional whitespace the three backticks follow. -/
def closesFence (rest : List Char) : Bool :=
  (dropLit ['\x60', '\x60', '\x60'] (rest.dropWhile isPyWs)).isSome

/-- Scan for the non-greedy end of the fenced group: the earliest newline
followed (after whitespace) by the closing backticks.  Returns the group
content accumulated so far. -/
def contentScan : List Char → List Char → Option (List Char)
  | [], _ => none
  | c :: rest, acc =>
    if c = '\n' ∧ closesFence rest then some acc.reverse
    else contentScan rest (c :: acc)

/-- Try to match the fence pattern at this exact position: the literal tag,
then whitespace that must contain a newline, then the non-greedy group. -/
def fenceAt (tag : List Char) (l : List Char) : Option (List Char) :=
  match dropLit tag l with
  | none => none
  | some r =>
    let run := r.takeWhile isPyWs
    if run.contains '\n' then
      contentScan (afterLastNl run ++ r.drop run.length) []
    else none

/-- Leftmost match of the fence pattern (re.search semantics). -/
def fenceScan (tag : List Char) : List Char → Option (List Char)
  | [] => none
  | l@(_ :: rest) =>
    match fenceAt tag l with
    | some g => some g
    | none => fenceScan tag rest

/-- The markdown-block stage of extract_json: the json-tagged pattern first,
then the plain pattern; a found group is stripped and must parse. -/
def mdCandidate (text : String) : Option String :=
  let try1 :=
    match fenceScan ['\x60', '\x60', '\x60', 'j', 's', 'o', 'n'] text.toList with
    | some inner =>
      let c := String.mk (pyStripL inner)
      if jsonParses c then some c else none
    | none => none
  match try1 with
  | some c => some c
  | none =>
    match fenceScan ['\x60', '\x60', '\x60'] text.toList with
    | some inner =>
      let c := String.mk (pyStripL inner)
      if jsonParses c then some c else none
    | none => none

/-- The brace-matching loop of extract_json, a literal transcription of the
escape / string / depth state machine; the accumulated candidate is kept
reversed.  At depth zero the candidate is parsed once; failure abandons the
stage (the Python loop breaks). -/
def braceLoop : List Char → Nat → Bool → Bool → List Char → Option String
  | [], _, _, _, _ => none
  | c :: rest, depth, inStr, esc, acc =>
    if esc then braceLoop rest depth inStr false (c :: acc)
    else if c = '\\' then braceLoop rest depth inStr true (c :: acc)
    else if c = '"' then braceLoop rest depth (!inStr) false (c :: acc)
    else if inStr then braceLoop rest depth inStr false (c :: acc)
    else if c = '{' then braceLoop rest (depth + 1) inStr false (c :: acc)
    else if c = '}' then
      if depth = 1 then
        let cand := String.mk (c :: acc).reverse
        if jsonParses cand then some cand else none
      else braceLoop rest (depth - 1) inStr false (c :: acc)
    else braceLoop rest depth inStr false (c :: acc)

/-- The brace stage: scan from the first opening brace. -/
def braceCandidate (text : String) : Option String :=
  match text.toList.dropWhile (· ≠ '{') with
  | [] => none
  | l => braceLoop l 0 false false []

/-- extract_json: direct parse of the stripped text, then the first fenced
code block, then the first balanced brace-delimited candidate; if every
stage fails (or the input is blank) the original text is returned. -/
def extract_json (text : String) : String :=
  if text = "" || pyStrip text = "" then text
  else
    let stripped := pyStrip text
    if jsonParses stripped then stripped
    else
      match mdCandidate text with
      | some c => c
      | none =>
        match braceCandidate text with
        | some c => c
        | none => text

/-! ## Decoded JSON values and tolerant coercion
(src/modules/agents/primary_analyzer.py lines 96-193, src/modules/models.py)

`JVal` models the Python values produced by json.loads (numbers as exact
rationals, objects as insertion-ordered association lists).  The coercion
`_dict_to_primary` is modelled in the `Except PyErr` monad: `PyErr` records
which kind of Python exception escapes (the `_safe_*` helpers catch
ValueError/TypeError internally and stay total, but an `item.get` on a
non-dict raises AttributeError, iterating a non-iterable raises TypeError,
and a pydantic string field given a non-string raises ValidationError). -/

inductive JVal where
  | null
  | bool (b : Bool)
  | num (q : Rat)
  | str (s : String)
  | arr (xs : List JVal)
  | obj (fields : List (String × JVal))

inductive PyErr where
  | attributeError
  | typeError
  | validationError
deriving DecidableEq

/-- Python truthiness of a decoded value. -/
def truthy : JVal → Bool
  | .null => false
  | .bool b => b
  | .num q => q ≠ 0
  | .str s => s ≠ ""
  | .arr xs => !xs.isEmpty
  | .obj fs => !fs.isEmpty

def lookupJ (fs : List (String × JVal)) (k : String) : Option JVal :=
  match fs.find? (fun kv => kv.1 = k) with
  | some kv => some kv.2
  | none => none

/-- Truncation toward zero, the behaviour of Python's int() on a float. -/
def truncRat (q : Rat) : Int :=
  if 0 ≤ q then ⌊q⌋ else -⌊-q⌋

/-- Python int(s) on a string: surrounding whitespace, an optional sign and
a nonempty digit run (digit-group underscores are not modelled; no input
of the repository exercises them). -/
def parseIntStr (s : String) : Option Int :=
  let l := pyStripL s.toList
  let core := match l with
    | '+' :: r => (true, r)
    | '-' :: r => (false, r)
    | r => (true, r)
  if core.2.isEmpty || !core.2.all isAsciiDigitC then none
  else
    let n := core.2.foldl (fun acc c => acc * 10 + (c.val.toNat - '0'.val.toNat)) 0
    some (if core.1 then (n : Int) else -(n : Int))

/-- Python float(s) on a string: sign, digits, optional decimal fraction
(exponent and inf/nan spellings are not modelled; no input of the
repository exercises them). -/
def parseFloatStr (s : String) : Option Rat :=
  let l := pyStripL s.toList
  let core := match l with
    | '+' :: r => (true, r)
    | '-' :: r => (false, r)
    | r => (true, r)
  let ip := core.2.takeWhile isAsciiDigitC
  let rest := core.2.dropWhile isAsciiDigitC
  let frac : Option (List Char) := match rest with
    | '.' :: r => if r.all isAsciiDigitC then some r else none
    | [] => some []
    | _ => none
  match frac with
  | none => none
  | some fp =>
    if ip.isEmpty && fp.isEmpty then none
    else
      let digits (ds : List Char) : Nat :=
        ds.foldl (fun acc c => acc * 10 + (c.val.toNat - '0'.val.toNat)) 0
      let mag : Rat := (digits ip : Rat) + (digits fp : Rat) / ((10 : Rat) ^ fp.length)
      some (if core.1 then mag else -mag)

/-- The total helper _safe_int: int(v) with ValueError/TypeError defaulted to 0. -/
def safeInt (v : JVal) : Int :=
  match v with
  | .num q => truncRat q
  | .bool b => if b then 1 else 0
  | .str s => (parseIntStr s).getD 0
  | _ => 0

/-- The total helper _safe_float: float(v) with ValueError/TypeError defaulted to 0. -/
def safeFloat (v : JVal) : Rat :=
  match v with
  | .num q => q
  | .bool b => if b then 1 else 0
  | .str s => (parseFloatStr s).getD 0
  | _ => 0

def safeIntF (fs : List (String × JVal)) (k : String) : Int :=
  safeInt ((lookupJ fs k).getD (.num 0))

def safeFloatF (fs : List (String × JVal)) (k : String) : Rat :=
  safeFloat ((lookupJ fs k).getD (.num 0))

/-- A pydantic string field fed from item.get(k, dflt): a missing key takes
the default, a present string is kept, and any other present value fails
model validation. -/
def pyStrField (fs : List (String × JVal)) (k : String) (dflt : String) :
    Except PyErr String :=
  match lookupJ fs k with
  | none => .ok dflt
  | some (.str s) => .ok s
  | some _ => .error .validationError

inductive Severity where
  | minor | moderate | major | critical
deriving DecidableEq

inductive GlobalIssueCategory where
  | logic | pacing | voice | pov_consistency | character_consistency
  | contradictions | tone | other
deriving DecidableEq

inductive ReaderQuestionType where
  | unclear_reference | missing_antecedent | undefined_term | logical_gap
deriving DecidableEq

inductive AuditVerdict where
  | agree | mostly_agree | mixed | mostly_disagree | disagree
deriving DecidableEq

def parseSeverity (s : String) : Option Severity :=
  if s = "minor" then some .minor
  else if s = "moderate" then some .moderate
  else if s = "major" then some .major
  else if s = "critical" then some .critical
  else none

def parseCategory (s : String) : Option GlobalIssueCategory :=
  if s = "logic" then some .logic
  else if s = "pacing" then some .pacing
  else if s = "voice" then some .voice
  else if s = "pov_consistency" then some .pov_consistency
  else if s = "character_consistency" then some .character_consistency
  else if s = "contradictions" then some .contradictions
  else if s = "tone" then some .tone
  else if s = "other" then some .other
  else none

def parseQType (s : String) : Option ReaderQuestionType :=
  if s = "unclear_reference" then some .unclear_reference
  else if s = "missing_antecedent" then some .missing_antecedent
  else if s = "undefined_term" then some .undefined_term
  else if s = "logical_gap" then some .logical_gap
  else none

/-- The total helper _safe_enum on a Severity field fed from
item.get(k, default-string): an unrecognised or non-string value falls back
to the default member (the Enum constructor raises ValueError there, which
_safe_enum catches). -/
def safeSeverityF (fs : List (String × JVal)) (k : String) (dflt : Severity) : Severity :=
  match lookupJ fs k with
  | some (.str s) => (parseSeverity s).getD dflt
  | some _ => dflt
  | none => dflt

def safeCategoryF (fs : List (String × JVal)) (k : String) : GlobalIssueCategory :=
  match lookupJ fs k with
  | some (.str s) => (parseCategory s).getD .other
  | some _ => .other
  | none => .other

def safeQTypeF (fs : List (String × JVal)) (k : String) : ReaderQuestionType :=
  match lookupJ fs k with
  | some (.str s) => (parseQType s).getD .unclear_reference
  | some _ => .unclear_reference
  | none => .unclear_reference

structure TextOverviewM where
  genre_guess : String
  tone : String
  apparent_audience : String
  language : String
  word_count : Int
  paragraph_count : Int
deriving DecidableEq

def defaultOverview : TextOverviewM := ⟨"", "", "", "", 0, 0⟩

structure StructuralOutlineItemM where
  paragraph_index : Int
  intent : String
  summary : String
deriving DecidableEq

structure LocalIssueM where
  paragraph_index : Int
  sentence : String
  issue_type : String
  severity : Severity
  description : String
  suggestion : String
deriving DecidableEq

structure GlobalIssueM where
  category : GlobalIssueCategory
  severity : Severity
  description : String
  evidence : String
deriving DecidableEq

structure QualityScoresM where
  clarity : Rat
  conciseness : Rat
  vividness : Rat
  originality : Rat
  coherence : Rat
  engagement : Rat
  overall : Rat
deriving DecidableEq

def defaultScores : QualityScoresM := ⟨0, 0, 0, 0, 0, 0, 0⟩

structure ClicheItemM where
  phrase : String
  location : String
  suggestion : String
deriving DecidableEq

structure ReaderQuestionM where
  question : String
  location : String
  qtype : ReaderQuestionType
deriving DecidableEq

structure ImprovementSuggestionM where
  category : String
  suggestion : String
  priority : Severity
deriving DecidableEq

/-- PrimaryAnalysis.  The strengths and summary fields are written by plain
attribute assignment in the source (pydantic does not validate assignments
by default), so they hold the raw decoded values. -/
structure PrimaryAnalysisM where
  text_overview : TextOverviewM
  structural_outline : List StructuralOutlineItemM
  local_issues : List LocalIssueM
  global_issues : List GlobalIssueM
  quality_scores : QualityScoresM
  cliche_detection : List ClicheItemM
  reader_questions : List ReaderQuestionM
  improvement_suggestions : List ImprovementSuggestionM
  strengths : JVal
  summary : JVal

def defaultPrimary : PrimaryAnalysisM :=
  ⟨defaultOverview, [], [], [], defaultScores, [], [], [], .arr [], .str ""⟩

/-- Python iteration over d.get(key, []): lists yield their elements,
strings their characters, dicts their keys; other values raise TypeError. -/
def iterElems (j : JVal) : Except PyErr (List JVal) :=
  match j with
  | .arr xs => .ok xs
  | .str s => .ok (s.toList.map fun c => .str (String.mk [c]))
  | .obj fs => .ok (fs.map fun kv => .str kv.1)
  | _ => .error .typeError

/-- The per-item append loop over a list field: the first raising item
aborts the whole loop, as in the source. -/
def exceptMapList (f : JVal → Except PyErr α) : List JVal → Except PyErr (List α)
  | [] => .ok []
  | x :: xs => do
    let y ← f x
    let ys ← exceptMapList f xs
    .ok (y :: ys)

def coerceListField (f : JVal → Except PyErr α) (v : Option JVal) :
    Except PyErr (List α) :=
  match v with
  | none => .ok []
  | some j => do
    let xs ← iterElems j
    exceptMapList f xs

/-- ov = d.get("text_overview", {}); if ov: build TextOverview from its fields.
A truthy non-dict raises AttributeError at the first ov.get. -/
def coerceOverview (v : Option JVal) : Except PyErr TextOverviewM :=
  match v with
  | none => .ok defaultOverview
  | some j =>
    if truthy j then
      match j with
      | .obj fs => do
        let g ← pyStrField fs "genre_guess" ""
        let t ← pyStrField fs "tone" ""
        let a ← pyStrField fs "apparent_audience" ""
        let lg ← pyStrField fs "language" ""
        .ok ⟨g, t, a, lg, safeIntF fs "word_count", safeIntF fs "paragraph_count"⟩
      | _ => .error .attributeError
    else .ok defaultOverview

def coerceOutlineItem (j : JVal) : Except PyErr StructuralOutlineItemM :=
  match j with
  | .obj fs => do
    let intent ← pyStrField fs "intent" ""
    let summary ← pyStrField fs "summary" ""
    .ok ⟨safeIntF fs "paragraph_index", intent, summary⟩
  | _ => .error .attributeError

def coerceLocalIssue (j : JVal) : Except PyErr LocalIssueM :=
  match j with
  | .obj fs => do
    let sentence ← pyStrField fs "sentence" ""
    let itype ← pyStrField fs "issue_type" ""
    let desc ← pyStrField fs "description" ""
    let sugg ← pyStrField fs "suggestion" ""
    .ok ⟨safeIntF fs "paragraph_index", sentence, itype,
         safeSeverityF fs "severity" .minor, desc, sugg⟩
  | _ => .error .attributeError

def coerceGlobalIssue (j : JVal) : Except PyErr GlobalIssueM :=
  match j with
  | .obj fs => do
    let desc ← pyStrField fs "description" ""
    let ev ← pyStrField fs "evidence" ""
    .ok ⟨safeCategoryF fs "category", safeSeverityF fs "severity" .minor, desc, ev⟩
  | _ => .error .attributeError

/-- qs = d.get("quality_scores", {}); if qs: build QualityScores via _safe_float. -/
def coerceScores (v : Option JVal) : Except PyErr QualityScoresM :=
  match v with
  | none => .ok defaultScores
  | some j =>
    if truthy j then
      match j with
      | .obj fs =>
        .ok ⟨safeFloatF fs "clarity", safeFloatF fs "conciseness",
             safeFloatF fs "vividness", safeFloatF fs "originality",
             safeFloatF fs "coherence", safeFloatF fs "engagement",
             safeFloatF fs "overall"⟩
      | _ => .error .attributeError
    else .ok defaultScores

def coerceCliche (j : JVal) : Except PyErr ClicheItemM :=
  match j with
  | .obj fs => do
    let ph ← pyStrField fs "phrase" ""
    let loc ← pyStrField fs "location" ""
    let sugg ← pyStrField fs "suggestion" ""
    .ok ⟨ph, loc, sugg⟩
  | _ => .error .attributeError

def coerceReaderQ (j : JVal) : Except PyErr ReaderQuestionM :=
  match j with
  | .obj fs => do
    let q ← pyStrField fs "question" ""
    let loc ← pyStrField fs "location" ""
    .ok ⟨q, loc, safeQTypeF fs "type"⟩
  | _ => .error .attributeError

def coerceImprovement (j : JVal) : Except PyErr ImprovementSuggestionM :=
  match j with
  | .obj fs => do
    let cat ← pyStrField fs "category" ""
    let sugg ← pyStrField fs "suggestion" ""
    .ok ⟨cat, sugg, safeSeverityF fs "priority" .moderate⟩
  | _ => .error .attributeError

/-- The coercion _dict_to_primary, field order as in the source; an exception
raised while rebuilding any list aborts the whole coercion. -/
def dict_to_primary (d : List (String × JVal)) : Except PyErr PrimaryAnalysisM := do
  let ov ← coerceOverview (lookupJ d "text_overview")
  let so ← coerceListField coerceOutlineItem (lookupJ d "structural_outline")
  let li ← coerceListField coerceLocalIssue (lookupJ d "local_issues")
  let gi ← coerceListField coerceGlobalIssue (lookupJ d "global_issues")
  let qs ← coerceScores (lookupJ d "quality_scores")
  let cd ← coerceListField coerceCliche (lookupJ d "cliche_detection")
  let rq ← coerceListField coerceReaderQ (lookupJ d "reader_questions")
  let imp ← coerceListField coerceImprovement (lookupJ d "improvement_suggestions")
  .ok ⟨ov, so, li, gi, qs, cd, rq, imp,
       (lookupJ d "strengths").getD (.arr []),
       (lookupJ d "summary").getD (.str "")⟩

/-! ## Repetition detection (src/modules/utils/heuristics.py lines 18-106) -/

def stopWordsEn : List String :=
  ["the", "a", "an", "is", "are", "was", "were", "be", "been", "being",
   "have", "has", "had", "do", "does", "did", "will", "would", "shall",
   "should", "may", "might", "must", "can", "could", "to", "of", "in",
   "for", "on", "with", "at", "by", "from", "as", "into", "through",
   "during", "before", "after", "above", "below", "between", "out",
   "off", "over", "under", "again", "further", "then", "once", "and",
   "but", "or", "nor", "not", "no", "so", "if", "it", "its", "this",
   "that", "these", "those", "he", "she", "they", "we", "you", "i",
   "me", "him", "her", "us", "them", "my", "your", "his", "our",
   "their", "what", "which", "who", "whom", "how", "when", "where",
   "why", "all", "each", "every", "both", "few", "more", "most",
   "other", "some", "such", "only", "own", "same", "than", "too",
   "very", "just", "about", "up"]

def stopWordsRu : List String :=
  ["и", "в", "на", "с", "не", "что", "он", "она", "они", "мы", "вы",
   "я", "это", "но", "по", "к", "из", "у", "за", "от", "до", "о",
   "же", "ли", "бы", "да", "нет", "так", "как", "все", "был", "была",
   "было", "были", "быть", "его", "её", "их", "ее", "мой", "мне",
   "мной", "тот", "та", "то", "те", "этот", "эта", "эти", "этого",
   "для", "при", "через", "после", "перед", "между", "во", "со",
   "уже", "ещё", "еще", "тоже", "также", "только", "если", "чем",
   "когда", "где", "кто", "чей", "свой", "себя", "сам", "сама",
   "весь", "вся", "всё", "вот", "ни", "даже"]

structure RepetitionItem where
  phrase : String
  count : Nat
  locations : List Nat
deriving DecidableEq

/-- An insertion-ordered map from phrase to the list of paragraph indices
appended so far (the Python dict with setdefault(key, []).append(pi)). -/
def addLoc (key : String) (pi : Nat) :
    List (String × List Nat) → List (String × List Nat)
  | [] => [(key, [pi])]
  | (k, ls) :: rest =>
    if k = key then (k, ls ++ [pi]) :: rest else (k, ls) :: addLoc key pi rest

/-- Window start indices of range(len(words) - n + 1); empty when the
paragraph is shorter than the window (Python's range of a negative bound). -/
def windowStarts (len n : Nat) : List Nat :=
  if n ≤ len then List.range (len - n + 1) else []

/-- sorted(set(locs)): ascending insertion dropping duplicates. -/
def insertAsc (n : Nat) : List Nat → List Nat
  | [] => [n]
  | m :: ms =>
    if n < m then n :: m :: ms
    else if n = m then m :: ms
    else m :: insertAsc n ms

def sortedDedup (l : List Nat) : List Nat := l.foldr insertAsc []

/-- Stable descending insertion by count (Python's stable sort with
reverse=True keeps the original order of equal counts). -/
def insertRepDesc (x : RepetitionItem) : List RepetitionItem → List RepetitionItem
  | [] => [x]
  | y :: ys =>
    if x.count < y.count then y :: insertRepDesc x ys else x :: y :: ys

def sortRepDesc : List RepetitionItem → List RepetitionItem
  | [] => []
  | x :: xs => insertRepDesc x (sortRepDesc xs)

/-- The n-gram accumulation loops of detect_repetitions: for each paragraph
(lower-cased word tokens), for each window size, for each window, append
the paragraph index under the joined gram unless every word is a stop word. -/
def ngramLocations (paragraphs : List String) (stop : List String)
    (sizes : List Nat) : List (String × List Nat) :=
  paragraphs.enum.foldl (fun acc pp =>
    let words := findWords (pyLower pp.2)
    sizes.foldl (fun acc n =>
      (windowStarts words.length n).foldl (fun acc i =>
        let gram := (words.drop i).take n
        if gram.all (fun w => stop.contains w) then acc
        else addLoc (String.intercalate " " gram) pp.1 acc) acc) acc) []

/-- detect_repetitions: items meeting the threshold, count = number of
appended occurrences, locations = sorted set of paragraph indices; sorted
by descending count, truncated to 30. -/
def detect_repetitions (paragraphs : List String) (language : String)
    (minCount : Nat) (ngramSizes : List Nat) : List RepetitionItem :=
  let stop := if language = "ru" then stopWordsRu else stopWordsEn
  let entries := ngramLocations paragraphs stop ngramSizes
  let results := entries.filterMap fun e =>
    if minCount ≤ e.2.length then
      some ⟨e.1, e.2.length, sortedDedup e.2⟩
    else none
  (sortRepDesc results).take 30

/-- The word accumulation loop of detect_word_repetitions: per occurrence,
skipping stop words and words shorter than three characters. -/
def wordLocations (paragraphs : List String) (stop : List String) :
    List (String × List Nat) :=
  paragraphs.enum.foldl (fun acc pp =>
    let words := findWords (pyLower pp.2)
    words.foldl (fun acc w =>
      if stop.contains w || w.toList.length < 3 then acc
      else addLoc w pp.1 acc) acc) []

/-- detect_word_repetitions: threshold, descending sort, truncation to 20. -/
def detect_word_repetitions (paragraphs : List String) (language : String)
    (minCount : Nat) : List RepetitionItem :=
  let stop := if language = "ru" then stopWordsRu else stopWordsEn
  let entries := wordLocations paragraphs stop
  let results := entries.filterMap fun e =>
    if minCount ≤ e.2.length then
      some ⟨e.1, e.2.length, sortedDedup e.2⟩
    else none
  (sortRepDesc results).take 20

/-! ## Segmentation (src/modules/utils/segmentation.py)

The sentence splitter is the regex fallback of the source (the optional
razdel tokenizer is an external package; the in-repository algorithm is the
fallback path, and the repository's own tests run against either).  The
split pattern matches a whitespace run preceded by sentence-final
punctuation and followed by a capital: with the greedy whitespace-plus the
separator is exactly a maximal whitespace run in that position. -/

def isSentEnd (c : Char) : Bool :=
  c = '.' || c = '!' || c = '?' || c.val = 0x2026 || c.val = 0xBB ||
  c = '"' || c.val = 0x201D

def isSentStartC (c : Char) : Bool :=
  ('A' ≤ c && c ≤ 'Z') || (0x400 ≤ c.val && c.val ≤ 0x42F) ||
  (0xC0 ≤ c.val && c.val ≤ 0xDC) || c.val = 0x201C || c.val = 0xAB || c = '"'

/-- Walk the whitespace / non-whitespace runs, splitting at whitespace runs
whose preceding character ends a sentence and whose following character can
start one; non-separator runs accumulate into the current part. -/
def assembleParts (cur : List Char) : List (Bool × List Char) → List (List Char)
  | [] => [cur]
  | (isWs, run) :: rest =>
    if isWs then
      match cur.getLast?, rest.head? with
      | some p, some nxt =>
        match nxt.2.head? with
        | some c =>
          if isSentEnd p && isSentStartC c then cur :: assembleParts [] rest
          else assembleParts (cur ++ run) rest
        | none => assembleParts (cur ++ run) rest
      | _, _ => assembleParts (cur ++ run) rest
    else assembleParts (cur ++ run) rest

def abbreviationsList : List String :=
  ["mr.", "mrs.", "ms.", "dr.", "prof.", "sr.", "jr.",
   "т.е.", "т.д.", "т.п.", "др.", "гг.", "г.", "стр.",
   "и.о.", "напр.", "ок."]

def strEndsWith (s suffix : String) : Bool :=
  suffix.toList.isSuffixOf s.toList

/-- The buffer loop of split_sentences: strip each part, merge a part into
the buffer when the buffer ends with a known abbreviation, otherwise emit
the buffer and start a new one. -/
def mergePartsLoop (buffer : String) : List String → List String
  | [] => if buffer = "" then [] else [buffer]
  | p0 :: rest =>
    let p := pyStrip p0
    if p = "" then mergePartsLoop buffer rest
    else if buffer = "" then mergePartsLoop p rest
    else if abbreviationsList.any (fun a => strEndsWith (pyLower buffer) a) then
      mergePartsLoop (buffer ++ " " ++ p) rest
    else buffer :: mergePartsLoop p rest

def split_sentences (text : String) : List String :=
  let t := pyStrip text
  if t = "" then []
  else mergePartsLoop "" ((assembleParts [] (chunkBy isPyWs t.toList)).map String.mk)

/-- split_paragraphs: split on whitespace runs containing a blank line
(at least two newlines), strip the parts, drop empties. -/
def splitParasRuns (cur : List Char) : List (Bool × List Char) → List (List Char)
  | [] => [cur]
  | (isWs, run) :: rest =>
    if isWs && 2 ≤ (run.filter (fun c => c = '\n')).length then
      cur :: splitParasRuns [] rest
    else splitParasRuns (cur ++ run) rest

def split_paragraphs (text : String) : List String :=
  (((splitParasRuns [] (chunkBy isPyWs (pyStrip text).toList)).map
      (fun cs => pyStrip (String.mk cs))).filter (fun p => p ≠ ""))

/-- count_words via the regex fallback of tokenize_words. -/
def count_words (text : String) : Nat := (findWords text).length

/-! ## Readability (src/modules/utils/heuristics.py lines 111-169) -/

def vowelsEn : List Char := ['a', 'e', 'i', 'o', 'u', 'y']

def vowelsRuEn : List Char :=
  "аеёиоуыэюяaeiouy".toList

/-- Count starts of vowel runs (consecutive vowels count once). -/
def vowelGroups : List Char → Bool → Nat
  | [], _ => 0
  | c :: rest, prev =>
    let isV := vowelsEn.contains c
    (if isV && !prev then 1 else 0) + vowelGroups rest isV

/-- The syllable heuristic _count_syllables. -/
def count_syllables (word : String) (language : String) : Nat :=
  let w := pyStripL (pyLower word).toList
  if w.isEmpty then 0
  else if language = "ru" then (w.filter (fun c => vowelsRuEn.contains c)).length
  else
    let n := vowelGroups w false
    let n := if w.getLast? = some 'e' && 1 < n then n - 1 else n
    max n 1

structure ReadabilityMetricsM where
  avg_sentence_length : Rat
  avg_word_length : Rat
  long_sentence_count : Nat
  very_long_sentence_count : Nat
  vocabulary_richness : Rat
  flesch_reading_ease : Option Rat
deriving DecidableEq

def defaultReadability : ReadabilityMetricsM := ⟨0, 0, 0, 0, 0, none⟩

/-- Decimal rounding of the exact rational, modelling Python round(x, d)
(the tie direction differs from float banker's rounding only at exact
decimal ties, which no property here depends on). -/
def roundTo (d : Nat) (x : Rat) : Rat :=
  ((round (x * (10 : Rat) ^ d) : Int) : Rat) / (10 : Rat) ^ d

/-- compute_readability: zero-valued result when there are no words or no
sentences; otherwise averages, long-sentence counts, vocabulary richness,
and the reading-ease score for English only. -/
def compute_readability (text language : String) : ReadabilityMetricsM :=
  let sentences := split_sentences text
  let words := findWords text
  if words.isEmpty || sentences.isEmpty then defaultReadability
  else
    let wc := words.length
    let sc := sentences.length
    let asl : Rat := (wc : Rat) / (sc : Rat)
    let totalSyllables := (words.map (fun w => count_syllables w language)).sum
    let awl : Rat := (((words.map (fun w => w.toList.length)).sum : Nat) : Rat) / (wc : Rat)
    let sentLengths := sentences.map count_words
    let longCount := (sentLengths.filter (fun n => 25 < n)).length
    let veryLong := (sentLengths.filter (fun n => 40 < n)).length
    let uniq := ((words.map pyLower).dedup).length
    let rich : Rat := if wc ≠ 0 then (uniq : Rat) / (wc : Rat) else 0
    let flesch : Option Rat :=
      if language = "en" ∧ 0 < sc ∧ 0 < wc then
        some (roundTo 1 (206.835 - 1.015 * asl
          - 84.6 * ((totalSyllables : Rat) / (wc : Rat))))
      else none
    ⟨roundTo 1 asl, roundTo 2 awl, longCount, veryLong, roundTo 4 rich, flesch⟩

/-! ## Coreference flags (src/modules/utils/heuristics.py lines 174-247) -/

def pronounsEn : List String :=
  ["he", "she", "it", "they", "him", "her", "them", "his", "its", "their"]

def pronounsRu : List String :=
  ["он", "она", "оно", "они", "его", "её", "ее", "их", "ему", "ей",
   "им", "ним", "ней", "них"]

def capitalizedDenyEn : List String :=
  ["He", "She", "It", "They", "Him", "Her", "Them", "His", "Its", "Their",
   "The", "This", "That", "These", "Those", "There", "Here",
   "My", "Your", "Our", "We", "You", "I",
   "What", "Which", "Who", "How", "When", "Where", "Why",
   "And", "But", "Or", "So", "If", "As", "In", "On", "At", "To", "For",
   "Not", "No", "Yes"]

def capitalizedDenyRu : List String :=
  ["Он", "Она", "Оно", "Они", "Его", "Её", "Ее", "Их", "Ему", "Ей",
   "Им", "Ним", "Ней", "Них", "Это", "Тот", "Та", "То", "Те",
   "Мой", "Мне", "Ваш", "Наш", "Мы", "Вы", "Я",
   "Что", "Кто", "Как", "Где", "Когда", "Зачем", "Почему",
   "И", "Но", "Или", "Если", "Да", "Нет", "Вот", "Уже"]

def isUpEn (c : Char) : Bool := 'A' ≤ c && c ≤ 'Z'
def isLoEn (c : Char) : Bool := 'a' ≤ c && c ≤ 'z'
def isUpRu (c : Char) : Bool := (0x410 ≤ c.val && c.val ≤ 0x42F) || c.val = 0x401
def isLoRu (c : Char) : Bool := (0x430 ≤ c.val && c.val ≤ 0x44F) || c.val = 0x451

/-- re.findall of a word-boundary, one capital, one-or-more lowercase
letters, word-boundary: scan positions left to right; a hit consumes its
span (matches cannot overlap because the span is flanked by non-word
characters).  The fuel argument (always at least the input length plus one)
only drives structural recursion. -/
def nounScanF (isUp isLo : Char → Bool) : Nat → List Char → Option Char → List String
  | 0, _, _ => []
  | _ + 1, [], _ => []
  | fuel + 1, c :: rest, prev =>
    let boundary := match prev with
      | none => true
      | some p => !isWordChar p
    let run := rest.takeWhile isLo
    let afterOk := match (rest.drop run.length).head? with
      | none => true
      | some d => !isWordChar d
    if isUp c && boundary && !run.isEmpty && afterOk then
      String.mk (c :: run) ::
        nounScanF isUp isLo fuel (rest.drop run.length) (some (run.getLast?.getD c))
    else nounScanF isUp isLo fuel rest (some c)

def nounScan (isUp isLo : Char → Bool) (l : List Char) (prev : Option Char) : List String :=
  nounScanF isUp isLo (l.length + 1) l prev

structure CoreferenceFlagM where
  pronoun : String
  paragraph_index : Nat
  sentence_index : Nat
  context : String
  issue : String
deriving DecidableEq

structure DanglingModifierFlagM where
  modifier : String
  paragraph_index : Nat
  sentence : String
  issue : String
deriving DecidableEq

/-- A single quote character, used to build the f-string messages. -/
def sglQuote : String := String.mk ['\x27']

def pronounsFor (language : String) : List String :=
  if language = "ru" then pronounsRu else pronounsEn

/-- The pronoun occurrences of one sentence (lower-cased word tokens kept
once per occurrence). -/
def sentPronounsOf (language : String) (sent : String) : List String :=
  (findWords (pyLower sent)).filter fun w => (pronounsFor language).contains w

/-- The sentence window sents[max(0, si-window) : min(len, si+window+1)]. -/
def contextSlice (sents : List String) (si window : Nat) : List String :=
  (sents.drop (si - window)).take (min sents.length (si + window + 1) - (si - window))

def coreContext (sents : List String) (si window : Nat) : String :=
  String.intercalate " " (contextSlice sents si window)

/-- Capitalised noun-like tokens of the window, with the denylist of
capitalised function words removed. -/
def coreNouns (language : String) (sents : List String) (si window : Nat) : List String :=
  if language = "ru" then
    (nounScan isUpRu isLoRu (coreContext sents si window).toList none).filter
      fun m => !capitalizedDenyRu.contains m
  else
    (nounScan isUpEn isLoEn (coreContext sents si window).toList none).filter
      fun m => !capitalizedDenyEn.contains m

/-- The per-sentence body of the detect_coreference_flags loop. -/
def coreFlagsOfSentence (language : String) (window : Nat) (sents : List String)
    (pi si : Nat) (sent : String) : List CoreferenceFlagM :=
  if (sentPronounsOf language sent).isEmpty then []
  else if !(coreNouns language sents si window).isEmpty then []
  else if pi = 0 && si = 0 then
    (sentPronounsOf language sent).map fun pn =>
      CoreferenceFlagM.mk pn pi si (strTake sent 100)
        ("Pronoun " ++ sglQuote ++ pn ++ sglQuote ++
          " appears at the very start with no prior antecedent")
  else if pi = 0 && si ≤ 1 then
    (sentPronounsOf language sent).map fun pn =>
      CoreferenceFlagM.mk pn pi si (strTake sent 100)
        ("Pronoun " ++ sglQuote ++ pn ++ sglQuote ++
          " appears early with no clear antecedent in context")
  else []

/-- detect_coreference_flags: the nested paragraph/sentence loops, output
truncated to 20 flags. -/
def detect_coreference_flags (paragraphs : List String) (language : String)
    (window : Nat) : List CoreferenceFlagM :=
  (List.flatten (paragraphs.enum.map fun pp =>
    let sents := split_sentences pp.2
    List.flatten (sents.enum.map fun sp =>
      coreFlagsOfSentence language window sents pp.1 sp.1 sp.2))).take 20

/-! ## LLM client (src/modules/llm_client.py lines 24-27 and 101-247)

The network is an oracle mapping the attempt index to either a reply or an
exception message; sleeps are recorded as a list of durations in seconds.
The SHA-256 fingerprint of _cache_key is modelled by the canonical blob it
hashes (the json.dumps of model, ordered messages and temperature with
sorted keys): the digest's role in the source is determinism of the cache
key, which the blob itself provides. -/

structure MessageM where
  role : String
  content : String
deriving DecidableEq

structure ModelConfigM where
  model : String
  temperature : Rat
  top_p : Rat
  max_tokens : Nat
  timeout : Nat
  retries : Nat
deriving DecidableEq

structure PipelineConfigM where
  primary : ModelConfigM
  audit : ModelConfigM
  enable_cache : Bool
deriving DecidableEq

def jsonQuote (s : String) : String :=
  "\"" ++ String.mk (s.toList.flatMap fun c =>
    if c = '"' || c = '\\' then ['\\', c] else [c]) ++ "\""

def msgBlob (m : MessageM) : String :=
  "\x7b\"content\": " ++ jsonQuote m.content ++ ", \"role\": " ++
    jsonQuote m.role ++ "\x7d"

/-- The cache fingerprint of _cache_key. -/
def cache_key (model : String) (messages : List MessageM) (t : Rat) : String :=
  "\x7b\"messages\": [" ++ String.intercalate ", " (messages.map msgBlob) ++
    "], \"model\": " ++ jsonQuote model ++ ", \"t\": " ++ toString t ++ "\x7d"

structure ChatSuccess where
  content : Option String
  usage : Option (Nat × Nat)
  durationMs : Rat
deriving DecidableEq

structure CallMetaM where
  call_id : String
  model : String
  prompt_id : String
  cached : Bool
  input_tokens : Option Nat
  output_tokens : Option Nat
  duration_ms : Rat
deriving DecidableEq

def cacheLookup (cache : List (String × String)) (k : String) : Option String :=
  match cache.find? (fun kv => kv.1 = k) with
  | some kv => some kv.2
  | none => none

def cacheInsert (k v : String) : List (String × String) → List (String × String)
  | [] => [(k, v)]
  | kv :: rest => if kv.1 = k then (k, v) :: rest else kv :: cacheInsert k v rest

/-- The retry loop of chat: attempt the oracle; on failure, if attempts
remain, sleep two-to-the-attempt seconds and try the next attempt.
Returns (outcome carrying the successful attempt index, calls made, sleeps). -/
def chatGo (oracle : Nat → Except String ChatSuccess) (attempt left : Nat) :
    Except String (Nat × ChatSuccess) × Nat × List Nat :=
  match oracle attempt with
  | .ok r => (.ok (attempt, r), 1, [])
  | .error e =>
    match left with
    | 0 => (.error e, 1, [])
    | left' + 1 =>
      let res := chatGo oracle (attempt + 1) left'
      (res.1, res.2.1 + 1, 2 ^ attempt :: res.2.2)

def resolveModelCfg (cfg : PipelineConfigM) (role : String) : ModelConfigM :=
  if role = "audit" then cfg.audit else cfg.primary

instance instDecEqExcept {ε α : Type} [DecidableEq ε] [DecidableEq α] :
    DecidableEq (Except ε α) := fun x y =>
  match x, y with
  | .ok a, .ok b =>
    if h : a = b then isTrue (h ▸ rfl) else isFalse (fun he => h (Except.ok.inj he))
  | .error a, .error b =>
    if h : a = b then isTrue (h ▸ rfl) else isFalse (fun he => h (Except.error.inj he))
  | .ok _, .error _ => isFalse (fun he => Except.noConfusion he)
  | .error _, .ok _ => isFalse (fun he => Except.noConfusion he)

structure ChatOut where
  result : Except String (String × CallMetaM)
  cache : List (String × String)
  networkCalls : Nat
  sleeps : List Nat
deriving DecidableEq

/-- LLMClient.chat: resolve the role configuration, serve from the cache on
a hit (no network call, zero duration, cached metadata), otherwise run the
retry loop; on success extract JSON when requested, write the cache when
enabled; on exhaustion aggregate the last error into one failure. -/
def chat (cfg : PipelineConfigM) (messages : List MessageM) (role promptId : String)
    (jsonMode : Bool) (cache : List (String × String))
    (oracle : Nat → Except String ChatSuccess) : ChatOut :=
  let mcfg := resolveModelCfg cfg role
  let ck := cache_key mcfg.model messages mcfg.temperature
  let hit := if cfg.enable_cache then cacheLookup cache ck else none
  match hit with
  | some v =>
    ⟨.ok (v, ⟨strTake ck 12, mcfg.model, promptId, true, none, none, 0⟩),
     cache, 0, []⟩
  | none =>
    match chatGo oracle 0 mcfg.retries with
    | (.ok ar, calls, sleeps) =>
      let rawText := ar.2.content.getD ""
      let text := if jsonMode then extract_json rawText else rawText
      let meta : CallMetaM :=
        ⟨role ++ "_" ++ promptId ++ "_" ++ toString ar.1, mcfg.model, promptId,
         false, ar.2.usage.map Prod.fst, ar.2.usage.map Prod.snd,
         roundTo 1 ar.2.durationMs⟩
      let cache' := if cfg.enable_cache then cacheInsert ck text cache else cache
      ⟨.ok (text, meta), cache', calls, sleeps⟩
    | (.error e, calls, sleeps) =>
      ⟨.error ("LLM call failed after " ++ toString (mcfg.retries + 1) ++
               " attempts: " ++ e), cache, calls, sleeps⟩

/-! ## Deterministic aggregator and orchestrator
(src/modules/agents/deterministic_analyzers.py, src/modules/orchestrator.py)

The statistical language classifier (an external seeded library behind
detect_language) and the dangling-modifier pattern table enter as function
parameters; the LLM-backed stages (primary analysis, audit) and the prompt
builders of prompts.py are environment-supplied functions of exactly the
inputs the source passes them.  Report fields holding wall-clock values
(timestamp, duration) and the input hash digest are omitted: no property
here concerns them. -/

structure AuditDisagreementM where
  claim : String
  issue : String
  evidence : String
  severity : Severity
deriving DecidableEq

structure AuditMissedIssueM where
  description : String
  evidence : String
  severity : Severity
deriving DecidableEq

structure AuditHallucinationM where
  claim : String
  why_hallucinated : String
deriving DecidableEq

structure AuditWeakCritiqueM where
  claim : String
  why_weak : String
deriving DecidableEq

structure AuditResultM where
  audit_verdict : AuditVerdict
  confidence_score : Rat
  disagreements : List AuditDisagreementM
  missed_issues : List AuditMissedIssueM
  hallucinations : List AuditHallucinationM
  weak_critiques : List AuditWeakCritiqueM
  summary : String
deriving DecidableEq

structure DeterministicAnalysisM where
  language : String
  language_confidence : Rat
  paragraph_count : Nat
  sentence_count : Nat
  word_count : Nat
  char_count : Nat
  paragraphs : List String
  repetitions : List RepetitionItem
  readability : ReadabilityMetricsM
  coreference_flags : List CoreferenceFlagM
  dangling_modifier_flags : List DanglingModifierFlagM
deriving DecidableEq

/-- Merge of the two repetition passes: concatenate, dedupe by phrase
keeping the first occurrence. -/
def dedupByPhrase : List RepetitionItem → List String → List RepetitionItem
  | [], _ => []
  | r :: rest, seen =>
    if seen.contains r.phrase then dedupByPhrase rest seen
    else r :: dedupByPhrase rest (r.phrase :: seen)

/-- run_deterministic_analysis with the language classifier and the
dangling-modifier detector as parameters. -/
def run_deterministic_analysis (detectLang : String → String × Rat)
    (danglingDetect : List String → String → List DanglingModifierFlagM)
    (text : String) : DeterministicAnalysisM :=
  let lr := detectLang text
  let paragraphs := split_paragraphs text
  let allSentences := List.flatten (paragraphs.map split_sentences)
  let ngramReps := detect_repetitions paragraphs lr.1 3 [2, 3]
  let wordReps := detect_word_repetitions paragraphs lr.1 5
  ⟨lr.1, lr.2, paragraphs.length, allSentences.length, count_words text,
   text.length, paragraphs, dedupByPhrase (ngramReps ++ wordReps) [],
   compute_readability text lr.1, detect_coreference_flags paragraphs lr.1 2,
   danglingDetect paragraphs lr.1⟩

inductive StageM where
  | startingStage
  | deterministicStage
  | generatingRequirementsStage
  | primaryStage
  | auditStage
  | buildingReportStage
  | doneStage
deriving DecidableEq

/-- The observable trace of a run: progress transitions (one per _progress
call of the source, in order) and cancellation checks with the value the
cancel callback returned. -/
inductive OrchEvent where
  | check (observed : Bool)
  | enter (s : StageM)
deriving DecidableEq

inductive OrchError where
  | valueError (msg : String)
  | runtimeError (msg : String)
deriving DecidableEq

structure ReportM where
  input_char_count : Nat
  input_text : String
  requirements : String
  generated_prompt : String
  language : String
  deterministic : DeterministicAnalysisM
  primary_analysis : PrimaryAnalysisM
  audit : Option AuditResultM
  llm_calls : List CallMetaM

structure OrchEnv where
  maxInputChars : Nat
  enableAudit : Bool
  cancel : Nat → Bool
  detectLang : String → String × Rat
  danglingDetect : List String → String → List DanglingModifierFlagM
  autoReq : DeterministicAnalysisM → String → String
  buildMessages : String → String → DeterministicAnalysisM → String → List MessageM
  formatPrompt : String → String → DeterministicAnalysisM → String → String
  primaryCall : List MessageM → Except String (PrimaryAnalysisM × CallMetaM)
  auditCall : String → String → PrimaryAnalysisM → Except String (AuditResultM × CallMetaM)

def cancelledMsg : String := "Cancelled by user."

/-- Orchestrator.run: validation, then the stage sequence with the
cancellation checks exactly where the source performs them (before the
deterministic stage, before the primary stage, and before the audit stage
when auditing is enabled).  The cancel callback is indexed by the number of
checks already performed.  Returns the outcome and the event trace. -/
def orchExec (env : OrchEnv) (text requirements : String) :
    Except OrchError ReportM × List OrchEvent :=
  if env.maxInputChars < text.length then
    (.error (.valueError "Input text exceeds maximum length."), [])
  else if pyStrip text = "" then
    (.error (.valueError "Input text is empty."), [])
  else
    let ev0 := [OrchEvent.enter .startingStage]
    if env.cancel 0 then (.error (.runtimeError cancelledMsg), ev0 ++ [.check true])
    else
      let det := run_deterministic_analysis env.detectLang env.danglingDetect text
      let ev1 := ev0 ++ [OrchEvent.check false, OrchEvent.enter .deterministicStage]
      let er :=
        if pyStrip requirements = "" then
          (env.autoReq det text, ev1 ++ [OrchEvent.enter .generatingRequirementsStage])
        else (requirements, ev1)
      if env.cancel 1 then (.error (.runtimeError cancelledMsg), er.2 ++ [.check true])
      else
        match env.primaryCall (env.buildMessages text det.language det er.1) with
        | .error e =>
          (.error (.runtimeError e),
           er.2 ++ [OrchEvent.check false, OrchEvent.enter .primaryStage])
        | .ok pr =>
          let ev3 := er.2 ++ [OrchEvent.check false, OrchEvent.enter .primaryStage]
          if env.enableAudit then
            if env.cancel 2 then
              (.error (.runtimeError cancelledMsg), ev3 ++ [.check true])
            else
              match env.auditCall text det.language pr.1 with
              | .error e =>
                (.error (.runtimeError e),
                 ev3 ++ [OrchEvent.check false, OrchEvent.enter .auditStage])
              | .ok ar =>
                (.ok ⟨text.length, text, requirements,
                      env.formatPrompt text det.language det er.1,
                      det.language, det, pr.1, some ar.1, [pr.2, ar.2]⟩,
                 ev3 ++ [OrchEvent.check false, OrchEvent.enter .auditStage,
                         OrchEvent.enter .buildingReportStage,
                         OrchEvent.enter .doneStage])
          else
            (.ok ⟨text.length, text, requirements,
                  env.formatPrompt text det.language det er.1,
                  det.language, det, pr.1, none, [pr.2]⟩,
             ev3 ++ [OrchEvent.enter .buildingReportStage,
                     OrchEvent.enter .doneStage])

def orchRun (env : OrchEnv) (text requirements : String) :
    Except OrchError ReportM :=
  (orchExec env text requirements).1

/-- Formalisation of the phrase "cancellation is checked immediately before
each stage transition": in the event trace, every stage entry other than
the initial one is immediately preceded by a cancellation check. -/
def stagesCheckedFrom : Option OrchEvent → List OrchEvent → Bool
  | _, [] => true
  | prev, e :: rest =>
    match e with
    | .enter s =>
      ((match s with
        | .startingStage => true
        | _ => false) ||
       (match prev with
        | some (.check _) => true
        | _ => false)) && stagesCheckedFrom (some e) rest
    | .check _ => stagesCheckedFrom (some e) rest

def stagesChecked (evs : List OrchEvent) : Bool := stagesCheckedFrom none evs

/-! Concrete environment used by witnesses and counterexamples. -/

def demoDetectLang : String → String × Rat := fun _ => ("en", 0)

def demoDangling : List String → String → List DanglingModifierFlagM := fun _ _ => []

def demoAutoReq : DeterministicAnalysisM → String → String :=
  fun _ _ => "auto-generated requirements"

def demoBuildMessages :
    String → String → DeterministicAnalysisM → String → List MessageM :=
  fun text lang _ req => [⟨"system", "critique in " ++ lang⟩,
                          ⟨"user", text ++ " | " ++ req⟩]

def demoFormatPrompt : String → String → DeterministicAnalysisM → String → String :=
  fun text lang _ req => lang ++ " | " ++ text ++ " | " ++ req

def demoMeta : CallMetaM := ⟨"", "", "", false, none, none, 0⟩

def demoPrimaryCall : List MessageM → Except String (PrimaryAnalysisM × CallMetaM) :=
  fun _ => .ok (defaultPrimary, demoMeta)

def demoAuditResult : AuditResultM := ⟨.agree, 0, [], [], [], [], ""⟩

def demoAuditCall :
    String → String → PrimaryAnalysisM → Except String (AuditResultM × CallMetaM) :=
  fun _ _ _ => .ok (demoAuditResult, demoMeta)

/-- A run in which cancellation is requested after the third (final) check:
the signal is up during the audit stage and at every later boundary. -/
def lateCancelEnv : OrchEnv :=
  ⟨8192, true, fun n => 3 ≤ n, demoDetectLang, demoDangling, demoAutoReq,
   demoBuildMessages, demoFormatPrompt, demoPrimaryCall, demoAuditCall⟩

/-- Tolerability of a local-issue entry: it is a dict whose string-typed
fields, when present, hold strings (the numeric and enum fields are
protected by the total _safe helpers for every value). -/
def strFieldOk (fs : List (String × JVal)) (k : String) : Bool :=
  match lookupJ fs k with
  | none => true
  | some (.str _) => true
  | some _ => false

def issueTolerable : JVal → Bool
  | .obj fs =>
    strFieldOk fs "sentence" && strFieldOk fs "issue_type" &&
    strFieldOk fs "description" && strFieldOk fs "suggestion"
  | _ => false

/-- An environment whose cancel callback answers true from the first check on. -/
def earlyCancelEnv : OrchEnv :=
  ⟨8192, true, fun _ => true, demoDetectLang, demoDangling, demoAutoReq,
   demoBuildMessages, demoFormatPrompt, demoPrimaryCall, demoAuditCall⟩

/-- An environment that never cancels. -/
def demoEnv : OrchEnv :=
  ⟨8192, true, fun _ => false, demoDetectLang, demoDangling, demoAutoReq,
   demoBuildMessages, demoFormatPrompt, demoPrimaryCall, demoAuditCall⟩

/-! Concrete client fixtures for witnesses. -/

def wModelCfg : ModelConfigM := ⟨"m1", 3 / 10, 1, 16384, 120, 2⟩

def wCfg : PipelineConfigM := ⟨wModelCfg, wModelCfg, true⟩

def wCfgNoCache : PipelineConfigM := ⟨wModelCfg, wModelCfg, false⟩

def wMsgs : List MessageM := [⟨"user", "hi"⟩]

def wOracle : Nat → Except String ChatSuccess :=
  fun _ => .ok ⟨some "\x7b\x7d", none, 0⟩

def wFailOracle : Nat → Except String ChatSuccess :=
  fun i => .error ("boom " ++ toString i)

/-- A JSON object used to exercise the recovery pipeline. -/
def testObj : String := "\x7b\"a\": 1\x7d"

/-- A single-sentence paragraph with twenty-one pronoun occurrences and no
capitalised token: twenty occurrences of one pronoun followed by another. -/
def cexPara : String :=
  "he he he he he he he he he he he he he he he he he he he he she"

/-! ## Theorems -/

theorem insertAsc_length_le (n : Nat) :
    ∀ l : List Nat, (insertAsc n l).length ≤ l.length + 1
  | [] => by simp [insertAsc]
  | m :: ms => by
    simp only [insertAsc]
    split
    · simp
    · split
      · simp
      · simpa using Nat.succ_le_succ (insertAsc_length_le n ms)

theorem sortedDedup_length_le (l : List Nat) :
    (sortedDedup l).length ≤ l.length := by
  induction l with
  | nil => simp [sortedDedup]
  | cons x xs ih =>
    simp only [sortedDedup, List.foldr_cons]
    calc (insertAsc x (xs.foldr insertAsc [])).length
        ≤ (xs.foldr insertAsc []).length + 1 := insertAsc_length_le x _
      _ ≤ xs.length + 1 := Nat.succ_le_succ ih

theorem mem_insertRepDesc {a x : RepetitionItem} :
    ∀ l : List RepetitionItem, a ∈ insertRepDesc x l ↔ a = x ∨ a ∈ l
  | [] => by simp [insertRepDesc]
  | y :: ys => by
    simp only [insertRepDesc]
    split
    · simp only [List.mem_cons, mem_insertRepDesc ys]
      tauto
    · simp only [List.mem_cons]

theorem mem_sortRepDesc {a : RepetitionItem} :
    ∀ l : List RepetitionItem, a ∈ sortRepDesc l ↔ a ∈ l
  | [] => Iff.rfl
  | x :: xs => by
    simp only [sortRepDesc, mem_insertRepDesc, mem_sortRepDesc xs, List.mem_cons]

theorem detect_repetitions_item_shape {ps : List String} {lang : String}
    {minc : Nat} {sizes : List Nat} {r : RepetitionItem}
    (h : r ∈ detect_repetitions ps lang minc sizes) :
    r.locations.length ≤ r.count ∧ minc ≤ r.count := by
  have h1 : r ∈ sortRepDesc ((ngramLocations ps
      (if lang = "ru" then stopWordsRu else stopWordsEn) sizes).filterMap fun e =>
        if minc ≤ e.2.length then
          some ⟨e.1, e.2.length, sortedDedup e.2⟩
        else none) := List.mem_of_mem_take h
  rw [mem_sortRepDesc, List.mem_filterMap] at h1
  obtain ⟨e, _, hfe⟩ := h1
  by_cases hc : minc ≤ e.2.length
  · rw [if_pos hc] at hfe
    cases hfe
    exact ⟨sortedDedup_length_le _, hc⟩
  · rw [if_neg hc] at hfe
    cases hfe

theorem detect_word_repetitions_item_shape {ps : List String} {lang : String}
    {minc : Nat} {r : RepetitionItem}
    (h : r ∈ detect_word_repetitions ps lang minc) :
    r.locations.length ≤ r.count ∧ minc ≤ r.count := by
  have h1 : r ∈ sortRepDesc ((wordLocations ps
      (if lang = "ru" then stopWordsRu else stopWordsEn)).filterMap fun e =>
        if minc ≤ e.2.length then
          some ⟨e.1, e.2.length, sortedDedup e.2⟩
        else none) := List.mem_of_mem_take h
  rw [mem_sortRepDesc, List.mem_filterMap] at h1
  obtain ⟨e, _, hfe⟩ := h1
  by_cases hc : minc ≤ e.2.length
  · rw [if_pos hc] at hfe
    cases hfe
    exact ⟨sortedDedup_length_le _, hc⟩
  · rw [if_neg hc] at hfe
    cases hfe

/-- C1 counterexample: a bigram occurring three times inside one paragraph
is reported by the n-gram pass with count 3 but a single location, so an
n-gram item's count does exceed the number of distinct paragraphs. -/
theorem ngram_count_exceeds_locations :
    detect_repetitions ["alpha beta alpha beta alpha beta"] "en" 3 [2, 3] =
      [⟨"alpha beta", 3, [0]⟩] ∧
    (RepetitionItem.mk "alpha beta" 3 [0]).count ≠
      (RepetitionItem.mk "alpha beta" 3 [0]).locations.length := by
  decide

/-- C1 amended: in both repetition passes, count records one unit per
occurrence, so for every reported item the number of distinct paragraph
locations is at most the count (with equality not guaranteed), and the
count meets the configured threshold. -/
theorem repetition_count_bounds :
    (∀ ps lang minc sizes r, r ∈ detect_repetitions ps lang minc sizes →
      r.locations.length ≤ r.count ∧ minc ≤ r.count) ∧
    (∀ ps lang minc r, r ∈ detect_word_repetitions ps lang minc →
      r.locations.length ≤ r.count ∧ minc ≤ r.count) :=
  ⟨fun _ _ _ _ _ h => detect_repetitions_item_shape h,
   fun _ _ _ _ h => detect_word_repetitions_item_shape h⟩

/-- Witness for the amended C1 statement at a concrete run. -/
theorem repetition_count_bounds_witness :
    (RepetitionItem.mk "alpha beta" 3 [0]).locations.length ≤ 3 ∧ 3 ≤ 3 :=
  repetition_count_bounds.1 ["alpha beta alpha beta alpha beta"] "en" 3 [2, 3]
    ⟨"alpha beta", 3, [0]⟩ (by decide)

theorem pyStrField_ok_of {fs : List (String × JVal)} {k : String} (d : String)
    (h : strFieldOk fs k = true) : ∃ s, pyStrField fs k d = .ok s := by
  unfold strFieldOk at h
  unfold pyStrField
  cases hl : lookupJ fs k with
  | none => exact ⟨d, rfl⟩
  | some v =>
    rw [hl] at h
    cases v with
    | str s => exact ⟨s, rfl⟩
    | null => cases h
    | bool b => cases h
    | num q => cases h
    | arr l => cases h
    | obj fs' => cases h

theorem issueTolerable_ok {j : JVal} (h : issueTolerable j = true) :
    ∃ it, coerceLocalIssue j = .ok it := by
  cases j with
  | obj fs =>
    simp only [issueTolerable, Bool.and_eq_true] at h
    obtain ⟨⟨⟨h1, h2⟩, h3⟩, h4⟩ := h
    obtain ⟨s1, e1⟩ := pyStrField_ok_of "" h1
    obtain ⟨s2, e2⟩ := pyStrField_ok_of "" h2
    obtain ⟨s3, e3⟩ := pyStrField_ok_of "" h3
    obtain ⟨s4, e4⟩ := pyStrField_ok_of "" h4
    refine ⟨⟨safeIntF fs "paragraph_index", s1, s2,
             safeSeverityF fs "severity" .minor, s3, s4⟩, ?_⟩
    simp [coerceLocalIssue, e1, e2, e3, e4, bind, Except.bind]
  | null => cases h
  | bool b => cases h
  | num q => cases h
  | str s => cases h
  | arr l => cases h

theorem exceptMapList_ok {α : Type} {f : JVal → Except PyErr α} :
    ∀ xs : List JVal, (∀ j ∈ xs, ∃ y, f j = .ok y) →
    ∃ ys, exceptMapList f xs = .ok ys ∧ ys.length = xs.length ∧
      ∀ i, (h1 : i < xs.length) → (h2 : i < ys.length) →
        f (xs.get ⟨i, h1⟩) = .ok (ys.get ⟨i, h2⟩)
  | [], _ => ⟨[], rfl, rfl, fun i h1 _ => absurd h1 (Nat.not_lt_zero i)⟩
  | x :: xs, h => by
    obtain ⟨y, hy⟩ := h x (List.mem_cons_self x xs)
    obtain ⟨ys, hys, hlen, hpt⟩ :=
      exceptMapList_ok xs (fun j hj => h j (List.mem_cons_of_mem x hj))
    refine ⟨y :: ys, ?_, by simpa using hlen, ?_⟩
    · simp [exceptMapList, hy, hys, bind, Except.bind]
    · intro i h1 h2
      cases i with
      | zero => simpa using hy
      | succ n =>
        simpa using hpt n (Nat.lt_of_succ_lt_succ h1) (Nat.lt_of_succ_lt_succ h2)

/-- C2 counterexample: a list field holding one well-formed dict entry and
one non-dict entry makes the whole coercion raise (AttributeError at the
entry's .get), rather than degrading only the malformed entry. -/
theorem dict_to_primary_raises_on_nondict_entry :
    dict_to_primary
      [("local_issues", .arr [.obj [("sentence", .str "fine")], .str "oops"])] =
      .error .attributeError := by
  rfl

/-- C2 amended: when every entry of the list field is itself a dict whose
string-typed fields hold strings where present, the coercion succeeds and
rebuilds the list element by element (entry i of the output is the
coercion of entry i of the input, so degradation is per entry), and a dict
entry with no usable fields degrades to the all-default item.  An entry
that is not a dict, or a non-string in a string-typed field, aborts the
whole coercion instead. -/
theorem dict_to_primary_tolerant :
    ∀ xs : List JVal, (∀ j ∈ xs, issueTolerable j = true) →
    ∃ ys, exceptMapList coerceLocalIssue xs = .ok ys ∧
      dict_to_primary [("local_issues", .arr xs)] =
        .ok ⟨defaultOverview, [], ys, [], defaultScores, [], [], [], .arr [], .str ""⟩ ∧
      ys.length = xs.length ∧
      (∀ i, (h1 : i < xs.length) → (h2 : i < ys.length) →
        coerceLocalIssue (xs.get ⟨i, h1⟩) = .ok (ys.get ⟨i, h2⟩)) ∧
      coerceLocalIssue (.obj []) = .ok ⟨0, "", "", .minor, "", ""⟩ := by
  intro xs h
  obtain ⟨ys, hm, hlen, hpt⟩ :=
    exceptMapList_ok xs (fun j hj => issueTolerable_ok (h j hj))
  refine ⟨ys, hm, ?_, hlen, hpt, rfl⟩
  have hA : lookupJ [("local_issues", JVal.arr xs)] "text_overview" = none := rfl
  have hB : lookupJ [("local_issues", JVal.arr xs)] "structural_outline" = none := rfl
  have hC : lookupJ [("local_issues", JVal.arr xs)] "local_issues" =
      some (.arr xs) := rfl
  have hD : lookupJ [("local_issues", JVal.arr xs)] "global_issues" = none := rfl
  have hE : lookupJ [("local_issues", JVal.arr xs)] "quality_scores" = none := rfl
  have hF : lookupJ [("local_issues", JVal.arr xs)] "cliche_detection" = none := rfl
  have hG : lookupJ [("local_issues", JVal.arr xs)] "reader_questions" = none := rfl
  have hH : lookupJ [("local_issues", JVal.arr xs)] "improvement_suggestions" = none := rfl
  have hI : lookupJ [("local_issues", JVal.arr xs)] "strengths" = none := rfl
  have hJ : lookupJ [("local_issues", JVal.arr xs)] "summary" = none := rfl
  simp [dict_to_primary, hA, hB, hC, hD, hE, hF, hG, hH, hI, hJ,
        coerceOverview, coerceScores, coerceListField, iterElems, hm,
        bind, Except.bind]

/-- Witness for the amended C2 statement: one well-formed entry and one
empty-dict (fully degraded) entry coerce independently. -/
theorem dict_to_primary_tolerant_witness :
    ∃ ys, exceptMapList coerceLocalIssue
        [.obj [("sentence", .str "fine")], .obj []] = .ok ys ∧
      dict_to_primary
          [("local_issues", .arr [.obj [("sentence", .str "fine")], .obj []])] =
        .ok ⟨defaultOverview, [], ys, [], defaultScores, [], [], [], .arr [], .str ""⟩ ∧
      ys.length = 2 ∧
      (∀ i, (h1 : i < ([JVal.obj [("sentence", .str "fine")], .obj []]).length) →
        (h2 : i < ys.length) →
        coerceLocalIssue (([JVal.obj [("sentence", .str "fine")], .obj []]).get ⟨i, h1⟩) =
          .ok (ys.get ⟨i, h2⟩)) ∧
      coerceLocalIssue (.obj []) = .ok ⟨0, "", "", .minor, "", ""⟩ :=
  dict_to_primary_tolerant [.obj [("sentence", .str "fine")], .obj []] (by decide)

theorem head_dropWhile_false {p : Char → Bool} {l : List Char} {a : Char}
    (h : (List.dropWhile p l).head? = some a) : p a = false := by
  have hm := List.head?_dropWhile_not p l
  rw [h] at hm
  exact hm

theorem cons_getLast_of {a c : Char} {acc : List Char}
    (h : acc.getLast? = some a) : (c :: acc).getLast? = some a := by
  cases acc with
  | nil => cases h
  | cons b bs => rw [List.getLast?_cons_cons]; exact h

/-- A list with non-whitespace first and last characters is unchanged by strip. -/
theorem pyStripL_eq_self {l : List Char}
    (hh : ((l.head?.all fun c => !isPyWs c) = true))
    (he : ((l.getLast?.all fun c => !isPyWs c) = true)) : pyStripL l = l := by
  cases l with
  | nil => rfl
  | cons c cs =>
    have hcw : isPyWs c = false := by simpa using hh
    unfold pyStripL
    rw [List.dropWhile_cons, if_neg (by simp [hcw])]
    cases hr : (c :: cs).reverse with
    | nil => simp at hr
    | cons d ds =>
      have hd : (c :: cs).getLast? = some d := by
        rw [← List.head?_reverse, hr]
        rfl
      have hdw : isPyWs d = false := by
        rw [hd] at he
        simpa using he
      rw [List.dropWhile_cons, if_neg (by simp [hdw]), ← hr, List.reverse_reverse]

theorem getLast?_dropWhile (p : Char → Bool) :
    ∀ l : List Char,
      List.dropWhile p l = [] ∨ (List.dropWhile p l).getLast? = l.getLast?
  | [] => Or.inl rfl
  | c :: cs => by
    rw [List.dropWhile_cons]
    by_cases h : p c
    · rw [if_pos h]
      cases cs with
      | nil => exact Or.inl rfl
      | cons b bs =>
        rcases getLast?_dropWhile p (b :: bs) with h2 | h2
        · exact Or.inl h2
        · right
          rw [h2, List.getLast?_cons_cons]
    · rw [if_neg h]
      exact Or.inr rfl

/-- The first and last characters of a stripped list are not whitespace. -/
theorem pyStripL_ends (l : List Char) :
    ((pyStripL l).head?.all fun c => !isPyWs c) = true ∧
    ((pyStripL l).getLast?.all fun c => !isPyWs c) = true := by
  unfold pyStripL
  constructor
  · rw [List.head?_reverse]
    rcases getLast?_dropWhile isPyWs (List.dropWhile isPyWs l).reverse with h2 | h2
    · rw [h2]
      rfl
    · rw [h2, List.getLast?_reverse]
      cases hA : (List.dropWhile isPyWs l).head? with
      | none => rfl
      | some a => simpa using head_dropWhile_false hA
  · rw [List.getLast?_reverse]
    cases hD : (List.dropWhile isPyWs (List.dropWhile isPyWs l).reverse).head? with
    | none => rfl
    | some a => simpa using head_dropWhile_false hD

theorem pyStripL_idem (l : List Char) : pyStripL (pyStripL l) = pyStripL l := by
  obtain ⟨h1, h2⟩ := pyStripL_ends l
  exact pyStripL_eq_self h1 h2

theorem toList_mk (l : List Char) : (String.mk l).toList = l := rfl

theorem pyStrip_idem (s : String) : pyStrip (pyStrip s) = pyStrip s := by
  unfold pyStrip
  rw [toList_mk, pyStripL_idem]

theorem pValue_nil (f : Nat) : pValue f [] = none := by
  cases f <;> rfl

theorem pValue_odd_ws {c : Char} (rest : List Char) (f : Nat)
    (h1 : isPyWs c = true) (h2 : isJsonWs c = false) :
    pValue f (c :: rest) = none := by
  have hc : c = '\x0b' ∨ c = '\x0c' := by
    simp only [isPyWs, Bool.or_eq_true, decide_eq_true_eq] at h1
    simp only [isJsonWs, Bool.or_eq_true, decide_eq_true_eq, not_or] at h2
    rcases h1 with h | h | h | h | h | h <;> simp_all
  rcases hc with hc | hc <;> subst hc <;> cases f <;> rfl

theorem jsonParses_of_blank {s : String} (h : pyStrip s = "") :
    jsonParses s = false := by
  have hl : pyStripL s.toList = [] := congrArg String.data h
  have hA : List.dropWhile isPyWs s.toList = [] := by
    unfold pyStripL at hl
    rw [List.reverse_eq_nil_iff, List.dropWhile_eq_nil_iff] at hl
    cases hc : List.dropWhile isPyWs s.toList with
    | nil => rfl
    | cons d ds =>
      have hpd : isPyWs d = false := head_dropWhile_false (l := s.toList) (by rw [hc]; rfl)
      have hmem : d ∈ (List.dropWhile isPyWs s.toList).reverse := by
        rw [hc]
        simp
      have hcontra := hl d hmem
      rw [hpd] at hcontra
      cases hcontra
  have hall : ∀ c ∈ s.toList, isPyWs c = true := List.dropWhile_eq_nil_iff.mp hA
  unfold jsonParses
  cases hsk : skipJsonWs s.toList with
  | nil => rw [pValue_nil]
  | cons c rest =>
    have hcin : c ∈ s.toList := by
      have hmem : c ∈ skipJsonWs s.toList := by
        rw [hsk]
        exact List.mem_cons_self c rest
      exact (List.dropWhile_suffix isJsonWs).mem hmem
    have hcj : isJsonWs c = false := by
      apply head_dropWhile_false (p := isJsonWs) (l := s.toList)
      rw [show List.dropWhile isJsonWs s.toList = skipJsonWs s.toList from rfl, hsk]
      rfl
    rw [pValue_odd_ws rest _ (hall c hcin) hcj]

theorem jsonParses_nonblank {s : String} (h : jsonParses s = true) :
    pyStrip s ≠ "" := by
  intro hb
  rw [jsonParses_of_blank hb] at h
  cases h

theorem stripMk_self (l : List Char) :
    pyStrip (String.mk (pyStripL l)) = String.mk (pyStripL l) := by
  unfold pyStrip
  rw [toList_mk, pyStripL_idem]

theorem mdCandidate_ok {t c : String} (h : mdCandidate t = some c) :
    jsonParses c = true ∧ pyStrip c = c := by
  unfold mdCandidate at h
  cases h1 : fenceScan ['\x60', '\x60', '\x60', 'j', 's', 'o', 'n'] t.toList with
  | some inner =>
    rw [h1] at h
    by_cases hp : jsonParses (String.mk (pyStripL inner)) = true
    · simp only [hp, if_true] at h
      cases h
      exact ⟨hp, stripMk_self inner⟩
    · simp only [hp] at h
      cases h2 : fenceScan ['\x60', '\x60', '\x60'] t.toList with
      | some inner2 =>
        rw [h2] at h
        by_cases hp2 : jsonParses (String.mk (pyStripL inner2)) = true
        · simp only [hp2, if_true] at h
          cases h
          exact ⟨hp2, stripMk_self inner2⟩
        · simp only [hp2] at h
          simp at h
      | none =>
        rw [h2] at h
        cases h
  | none =>
    rw [h1] at h
    cases h2 : fenceScan ['\x60', '\x60', '\x60'] t.toList with
    | some inner2 =>
      rw [h2] at h
      by_cases hp2 : jsonParses (String.mk (pyStripL inner2)) = true
      · simp only [hp2, if_true] at h
        cases h
        exact ⟨hp2, stripMk_self inner2⟩
      · simp only [hp2] at h
        simp at h
    | none =>
      rw [h2] at h
      cases h

theorem braceLoop_ok :
    ∀ (l : List Char) (depth : Nat) (inStr esc : Bool) (acc : List Char)
      (s : String), acc.getLast? = some '{' →
      braceLoop l depth inStr esc acc = some s →
      jsonParses s = true ∧ pyStrip s = s := by
  intro l
  induction l with
  | nil =>
    intro depth inStr esc acc s hacc h
    cases h
  | cons ch rest ih =>
    intro depth inStr esc acc s hacc h
    unfold braceLoop at h
    split_ifs at h with h1 h2 h3 h4 h5 h6 h7
    · exact ih _ _ _ _ _ (cons_getLast_of hacc) h
    · exact ih _ _ _ _ _ (cons_getLast_of hacc) h
    · exact ih _ _ _ _ _ (cons_getLast_of hacc) h
    · exact ih _ _ _ _ _ (cons_getLast_of hacc) h
    · exact ih _ _ _ _ _ (cons_getLast_of hacc) h
    · -- closing brace at depth one: the candidate is returned only if it parses
      by_cases h9 : jsonParses (String.mk ((ch :: acc).reverse)) = true
      · rw [if_pos h9] at h
        cases h
        subst h6
        refine ⟨h9, ?_⟩
        have hhd : (acc.reverse ++ ['}']).head? = some '{' := by
          rw [List.head?_append, List.head?_reverse, hacc]
          rfl
        have hgl : (acc.reverse ++ ['}']).getLast? = some '}' := by
          rw [List.getLast?_append]
          rfl
        unfold pyStrip
        rw [toList_mk, List.reverse_cons]
        have hfix := pyStripL_eq_self (l := acc.reverse ++ ['}'])
          (by rw [hhd]; rfl) (by rw [hgl]; rfl)
        rw [hfix, ← List.reverse_cons]
      · rw [if_neg h9] at h
        cases h
    · exact ih _ _ _ _ _ (cons_getLast_of hacc) h
    · exact ih _ _ _ _ _ (cons_getLast_of hacc) h

theorem braceCandidate_ok {t c : String} (h : braceCandidate t = some c) :
    jsonParses c = true ∧ pyStrip c = c := by
  unfold braceCandidate at h
  cases hd : t.toList.dropWhile (fun x => decide (x ≠ '{')) with
  | nil =>
    rw [hd] at h
    cases h
  | cons d ds =>
    rw [hd] at h
    have hdb : d = '{' := by
      have hf := head_dropWhile_false (p := fun x => decide (x ≠ '{'))
        (l := t.toList) (by rw [hd]; rfl)
      simpa using hf
    subst hdb
    have h2 : braceLoop ds 1 false false ['{'] = some c := h
    exact braceLoop_ok ds 1 false false ['{'] c rfl h2

theorem extract_json_of_parses {t : String} (h : jsonParses (pyStrip t) = true) :
    extract_json t = pyStrip t := by
  have hnb : pyStrip t ≠ "" := by
    intro hb
    rw [hb] at h
    cases h
  have ht : t ≠ "" := by
    intro h0
    subst h0
    exact hnb rfl
  have h1 : (t = "" || pyStrip t = "") = false := by
    simp [ht, hnb]
  simp only [extract_json, h1, Bool.false_eq_true, if_false, h, if_true]

theorem extract_json_cases (t : String) :
    extract_json t = t ∨
    (jsonParses (extract_json t) = true ∧ pyStrip (extract_json t) = extract_json t) := by
  by_cases h1 : (t = "" || pyStrip t = "") = true
  · left
    simp only [extract_json, h1, if_true]
  · have h1' : (t = "" || pyStrip t = "") = false := by
      simpa using h1
    by_cases h2 : jsonParses (pyStrip t) = true
    · right
      rw [extract_json_of_parses h2]
      exact ⟨h2, pyStrip_idem t⟩
    · have h2' : jsonParses (pyStrip t) = false := by
        simpa using h2
      cases hm : mdCandidate t with
      | some c =>
        have he : extract_json t = c := by
          simp only [extract_json, h1', Bool.false_eq_true, if_false, h2', hm]
        right
        rw [he]
        exact mdCandidate_ok hm
      | none =>
        cases hb : braceCandidate t with
        | some c =>
          have he : extract_json t = c := by
            simp only [extract_json, h1', Bool.false_eq_true, if_false, h2', hm, hb]
          right
          rw [he]
          exact braceCandidate_ok hb
        | none =>
          left
          simp only [extract_json, h1', Bool.false_eq_true, if_false, h2', hm, hb]

/-- C6: the recovery pipeline of extract_json.  First, a direct parse of the
stripped text wins over the later stages.  Second, the identical inner JSON
object is recovered whether the source text is a fenced code block, a bare
balanced object surrounded by whitespace, or a balanced object preceded by
extraneous prose.  Third, extract_json is total and on failure of all
stages returns its input unchanged: every output is either the input itself
or a parseable extraction. -/
theorem extract_json_stage_order_and_recovery :
    (∀ t, jsonParses (pyStrip t) = true → extract_json t = pyStrip t) ∧
    (extract_json ("```json\n" ++ testObj ++ "\n```") = testObj ∧
     extract_json ("  " ++ testObj ++ "  ") = testObj ∧
     extract_json ("Here is the critique output:\n" ++ testObj) = testObj) ∧
    (∀ t, extract_json t = t ∨ jsonParses (extract_json t) = true) := by
  refine ⟨fun t h => extract_json_of_parses h, ⟨?_, ?_, ?_⟩, fun t => ?_⟩
  · decide
  · decide
  · decide
  · rcases extract_json_cases t with h | ⟨hp, _⟩
    · exact Or.inl h
    · exact Or.inr hp

/-- Witness for the hypothesis-bearing first part of the C6 statement. -/
theorem extract_json_stage_order_witness :
    extract_json "  \x7b\x7d  " = pyStrip "  \x7b\x7d  " :=
  extract_json_stage_order_and_recovery.1 "  \x7b\x7d  " (by decide)

/-- C10: extract_json is idempotent.  A successful extraction returns a
stripped parseable string, which the direct-parse stage accepts unchanged;
a failed extraction returns the input, on which extraction fails
identically again. -/
theorem extract_json_idem (t : String) :
    extract_json (extract_json t) = extract_json t := by
  rcases extract_json_cases t with h | ⟨hp, hs⟩
  · rw [h]
    exact h
  · have hagain : jsonParses (pyStrip (extract_json t)) = true := by
      rw [hs]
      exact hp
    rw [extract_json_of_parses hagain, hs]

/-- C7: the reading-ease score is populated exactly when the language is
"en" and the text has at least one word and one sentence, and its value is
the closed-form Flesch formula over the model's counts, decimally rounded. -/
theorem compute_readability_flesch (text lang : String) :
    (((compute_readability text lang).flesch_reading_ease).isSome = true ↔
      (lang = "en" ∧ findWords text ≠ [] ∧ split_sentences text ≠ [])) ∧
    ∀ v, (compute_readability text lang).flesch_reading_ease = some v →
      v = roundTo 1 (206.835
        - 1.015 * (((findWords text).length : Rat) / ((split_sentences text).length : Rat))
        - 84.6 * ((((findWords text).map fun w => count_syllables w lang).sum : Rat)
            / ((findWords text).length : Rat))) := by
  by_cases hw : findWords text = []
  · have hc : ((findWords text).isEmpty || (split_sentences text).isEmpty) = true := by
      simp [hw]
    constructor
    · simp [compute_readability, hc, defaultReadability, hw]
    · intro v hv
      simp [compute_readability, hc, defaultReadability] at hv
  · by_cases hs : split_sentences text = []
    · have hc : ((findWords text).isEmpty || (split_sentences text).isEmpty) = true := by
        simp [hs]
      constructor
      · simp [compute_readability, hc, defaultReadability, hs]
      · intro v hv
        simp [compute_readability, hc, defaultReadability] at hv
    · have hc : ((findWords text).isEmpty || (split_sentences text).isEmpty) = false := by
        simp [List.isEmpty_eq_false, hw, hs]
      constructor
      · by_cases hl : lang = "en"
        · simp [compute_readability, hc, hl, hw, hs, List.length_pos]
        · simp [compute_readability, hc, hl]
      · intro v hv
        simp only [compute_readability, hc, Bool.false_eq_true, if_false] at hv
        by_cases hcond : lang = "en" ∧ 0 < (split_sentences text).length ∧
            0 < (findWords text).length
        · rw [if_pos hcond] at hv
          exact (Option.some.inj hv).symm
        · rw [if_neg hcond] at hv
          cases hv

/-- Witness for C7 at a concrete English text: the score is populated and
carries the closed-form value. -/
theorem compute_readability_flesch_witness :
    ((compute_readability "Hello world." "en").flesch_reading_ease).isSome = true ∧
    ∃ v, (compute_readability "Hello world." "en").flesch_reading_ease = some v ∧
      v = roundTo 1 (206.835
        - 1.015 * (((findWords "Hello world.").length : Rat)
            / ((split_sentences "Hello world.").length : Rat))
        - 84.6 * ((((findWords "Hello world.").map fun w => count_syllables w "en").sum : Rat)
            / ((findWords "Hello world.").length : Rat))) := by
  have h1 : ((compute_readability "Hello world." "en").flesch_reading_ease).isSome = true :=
    (compute_readability_flesch "Hello world." "en").1.mpr ⟨rfl, by decide, by decide⟩
  obtain ⟨v, hv⟩ := Option.isSome_iff_exists.mp h1
  exact ⟨h1, v, hv, (compute_readability_flesch "Hello world." "en").2 v hv⟩

theorem mem_take_append {α : Type} {a : α} {l r : List α} {n : Nat}
    (h : a ∈ l) (hl : l.length ≤ n) : a ∈ (l ++ r).take n := by
  rw [List.take_append_eq_append_take, List.take_of_length_le hl]
  exact List.mem_append.mpr (Or.inl h)

theorem take_min_length {α : Type} (l : List α) (n : Nat) :
    l.take (min l.length n) = l.take n := by
  rcases le_or_lt l.length n with h | h
  · rw [min_eq_left h, List.take_length, List.take_of_length_le h]
  · rw [min_eq_right (le_of_lt h)]

theorem coreFlags_fields {lang : String} {w : Nat} {sents : List String}
    {pi si : Nat} {sent : String} {f : CoreferenceFlagM}
    (h : f ∈ coreFlagsOfSentence lang w sents pi si sent) :
    f.paragraph_index = 0 ∧ f.sentence_index ≤ 1 := by
  unfold coreFlagsOfSentence at h
  split_ifs at h with h1 h2 h3 h4
  · cases h
  · cases h
  · rw [List.mem_map] at h
    obtain ⟨pn, _, hf⟩ := h
    simp only [Bool.and_eq_true, decide_eq_true_eq] at h3
    rw [← hf]
    refine ⟨h3.1, ?_⟩
    show si ≤ 1
    omega
  · rw [List.mem_map] at h
    obtain ⟨pn, _, hf⟩ := h
    simp only [Bool.and_eq_true, decide_eq_true_eq] at h4
    rw [← hf]
    exact ⟨h4.1, h4.2⟩
  · cases h

/-- C8 counterexample: a single-sentence paragraph containing twenty
occurrences of one pronoun followed by another pronoun, with no capitalised
token anywhere: the second pronoun satisfies every hypothesis of the claim,
yet the 20-entry cap truncates its flag out of the output. -/
theorem coref_flag_dropped_by_cap :
    split_sentences cexPara = [cexPara] ∧
    "she" ∈ sentPronounsOf "en" cexPara ∧
    coreNouns "en" [cexPara] 0 2 = [] ∧
    (detect_coreference_flags [cexPara] "en" 2).all
      (fun f => f.pronoun != "she") = true := by
  decide

/-- C8 amended: for a single-paragraph document whose first sentence
contains a pronoun with no capitalised noun-like token (outside the
denylist) in the surrounding window, a missing-antecedent flag carrying
that pronoun at paragraph 0, sentence 0 is emitted, provided the first
sentence carries at most 20 pronoun occurrences (the output is truncated
to the first 20 flags in emission order).  Unconditionally, flags are only
ever emitted for the first two sentences of the first paragraph, and the
output never exceeds 20 entries. -/
theorem coref_flag_emission :
    (∀ (p s0 : String) (rest : List String) (pn : String),
      split_sentences p = s0 :: rest →
      pn ∈ sentPronounsOf "en" s0 →
      coreNouns "en" (s0 :: rest) 0 2 = [] →
      (sentPronounsOf "en" s0).length ≤ 20 →
      ∃ f, f ∈ detect_coreference_flags [p] "en" 2 ∧
        f.pronoun = pn ∧ f.paragraph_index = 0 ∧ f.sentence_index = 0) ∧
    (∀ ps lang w,
      (∀ f ∈ detect_coreference_flags ps lang w,
        f.paragraph_index = 0 ∧ f.sentence_index ≤ 1) ∧
      (detect_coreference_flags ps lang w).length ≤ 20) := by
  constructor
  · intro p s0 rest pn hsents hpn hnoun hlen
    have hne : (sentPronounsOf "en" s0).isEmpty = false := by
      rw [List.isEmpty_eq_false]
      intro h0
      rw [h0] at hpn
      cases hpn
    have hflag : coreFlagsOfSentence "en" 2 (s0 :: rest) 0 0 s0 =
        (sentPronounsOf "en" s0).map (fun pn =>
          ⟨pn, 0, 0, strTake s0 100,
           "Pronoun " ++ sglQuote ++ pn ++ sglQuote ++
             " appears at the very start with no prior antecedent"⟩) := by
      unfold coreFlagsOfSentence
      rw [hne, hnoun]
      rfl
    refine ⟨⟨pn, 0, 0, strTake s0 100,
      "Pronoun " ++ sglQuote ++ pn ++ sglQuote ++
        " appears at the very start with no prior antecedent"⟩, ?_, rfl, rfl, rfl⟩
    unfold detect_coreference_flags
    have he : ([p] : List String).enum = [(0, p)] := rfl
    rw [he]
    simp only [List.map_cons, List.map_nil, List.flatten_cons, List.flatten_nil,
      List.append_nil]
    rw [hsents, List.enum_cons]
    simp only [List.map_cons, List.flatten_cons]
    apply mem_take_append
    · rw [hflag]
      exact List.mem_map_of_mem _ hpn
    · rw [hflag, List.length_map]
      exact hlen
  · intro ps lang w
    constructor
    · intro f hf
      have h1 := List.mem_of_mem_take hf
      rw [List.mem_flatten] at h1
      obtain ⟨inner, hin, hfin⟩ := h1
      rw [List.mem_map] at hin
      obtain ⟨pp, _, hpp⟩ := hin
      rw [← hpp] at hfin
      rw [List.mem_flatten] at hfin
      obtain ⟨inner2, hin2, hfin2⟩ := hfin
      rw [List.mem_map] at hin2
      obtain ⟨sp, _, hsp⟩ := hin2
      rw [← hsp] at hfin2
      exact coreFlags_fields hfin2
    · unfold detect_coreference_flags
      rw [List.length_take]
      exact min_le_left _ _

/-- Witness for the amended C8 statement at a concrete single-sentence text. -/
theorem coref_flag_emission_witness :
    ∃ f, f ∈ detect_coreference_flags ["he walked into the room."] "en" 2 ∧
      f.pronoun = "he" ∧ f.paragraph_index = 0 ∧ f.sentence_index = 0 :=
  coref_flag_emission.1 "he walked into the room." "he walked into the room." [] "he"
    (by decide) (by decide) (by decide) (by decide)

/-- C3 counterexample: with auditing enabled and a cancellation signal that
turns on right after the third (final) check, the run performs no check
before the report-building transition (the event trace has no check event
before that stage entry) and returns a full report even though the signal
is up; so cancellation is not checked before every stage transition. -/
theorem cancellation_check_gap :
    (orchExec lateCancelEnv "Hello world." "Focus on tone.").1.isOk = true ∧
    stagesChecked (orchExec lateCancelEnv "Hello world." "Focus on tone.").2 = false ∧
    lateCancelEnv.cancel 3 = true := by
  refine ⟨?_, ?_, ?_⟩ <;> decide

/-- C3 amended: cancellation is checked at exactly three boundaries (before
the deterministic stage, before the primary stage, and, when auditing is
enabled, before the audit stage); a signal observed at any of these aborts
the run with the distinguished RuntimeError message "Cancelled by user."
(distinct from the service-failure message) and no report; no check guards
the requirements-generation, report-building or done transitions. -/
theorem cancellation_boundaries :
    ∀ (env : OrchEnv) (t r : String),
      t.length ≤ env.maxInputChars → pyStrip t ≠ "" →
      (env.cancel 0 = true ∨ env.cancel 1 = true ∨
        (env.enableAudit = true ∧ env.cancel 2 = true ∧
          ∀ msgs, (env.primaryCall msgs).isOk = true)) →
      orchRun env t r = .error (.runtimeError cancelledMsg) := by
  intro env t r hlen hblank hc
  unfold orchRun orchExec
  rw [if_neg (not_lt.mpr hlen), if_neg hblank]
  by_cases h0 : env.cancel 0 = true
  · rw [if_pos h0]
  · rw [if_neg h0]
    by_cases h1 : env.cancel 1 = true
    · rw [if_pos h1]
    · rw [if_neg h1]
      rcases hc with h0' | h1' | ⟨ha, h2, hp⟩
      · exact absurd h0' h0
      · exact absurd h1' h1
      · split
        · next e heq =>
            have hx := congrArg Except.isOk heq
            rw [hp] at hx
            simp [Except.isOk, Except.toBool] at hx
        · next pr heq =>
            rw [if_pos ha, if_pos h2]

/-- Witness for the amended C3 statement: cancelling before the first check
yields the cancellation failure. -/
theorem cancellation_boundaries_witness :
    orchRun earlyCancelEnv "Hello world." "Focus on tone." =
      .error (.runtimeError cancelledMsg) :=
  cancellation_boundaries earlyCancelEnv "Hello world." "Focus on tone."
    (by decide) (by decide) (Or.inl rfl)

/-- C9: the requirements field of every returned report is exactly the
caller's requirements string, and when that string is non-blank the
auto-requirements generator has no influence on the run at all (two runs
differing only in the generator coincide). -/
theorem requirements_preserved :
    (∀ (env : OrchEnv) (t r : String) (rep : ReportM) (evs : List OrchEvent),
      orchExec env t r = (.ok rep, evs) → rep.requirements = r) ∧
    (∀ (m : Nat) (ea : Bool) (c : Nat → Bool) (dl : String → String × Rat)
       (dg : List String → String → List DanglingModifierFlagM)
       (f g : DeterministicAnalysisM → String → String)
       (bm : String → String → DeterministicAnalysisM → String → List MessageM)
       (fp : String → String → DeterministicAnalysisM → String → String)
       (pc : List MessageM → Except String (PrimaryAnalysisM × CallMetaM))
       (ac : String → String → PrimaryAnalysisM →
         Except String (AuditResultM × CallMetaM))
       (t r : String), pyStrip r ≠ "" →
      orchExec ⟨m, ea, c, dl, dg, f, bm, fp, pc, ac⟩ t r =
        orchExec ⟨m, ea, c, dl, dg, g, bm, fp, pc, ac⟩ t r) := by
  constructor
  · intro env t r rep evs h
    simp only [orchExec] at h
    split at h
    · injection h with h1 h2
      exact Except.noConfusion h1
    · split at h
      · injection h with h1 h2
        exact Except.noConfusion h1
      · split at h
        · injection h with h1 h2
          exact Except.noConfusion h1
        · split at h
          · injection h with h1 h2
            exact Except.noConfusion h1
          · split at h
            · injection h with h1 h2
              exact Except.noConfusion h1
            · split at h
              · split at h
                · injection h with h1 h2
                  exact Except.noConfusion h1
                · split at h
                  · injection h with h1 h2
                    exact Except.noConfusion h1
                  · injection h with h1 h2
                    injection h1 with h3
                    rw [← h3]
              · injection h with h1 h2
                injection h1 with h3
                rw [← h3]
  · intro m ea c dl dg f g bm fp pc ac t r hr
    simp only [orchExec, if_neg hr]

/-- Witness for C9 at a concrete successful run. -/
theorem requirements_preserved_witness :
    ∃ rep evs, orchExec demoEnv "Hello world." "Be kind." = (.ok rep, evs) ∧
      rep.requirements = "Be kind." := by
  obtain ⟨rep, evs, h⟩ :
      ∃ rep evs, orchExec demoEnv "Hello world." "Be kind." = (.ok rep, evs) :=
    ⟨_, _, rfl⟩
  exact ⟨rep, evs, h, requirements_preserved.1 demoEnv _ _ rep evs h⟩

theorem cacheLookup_insert (k v : String) :
    ∀ c : List (String × String), cacheLookup (cacheInsert k v c) k = some v
  | [] => by simp [cacheInsert, cacheLookup, List.find?]
  | kv :: rest => by
    by_cases h : kv.1 = k
    · simp [cacheInsert, h, cacheLookup, List.find?]
    · have hd : (decide (kv.1 = k)) = false := by simp [h]
      simp only [cacheInsert, if_neg h]
      show cacheLookup (kv :: cacheInsert k v rest) k = some v
      simp only [cacheLookup, List.find?_cons, hd]
      exact cacheLookup_insert k v rest

theorem chat_result_hit {cfg : PipelineConfigM} {msgs : List MessageM}
    {role pid : String} {jm : Bool} {cache : List (String × String)}
    {oracle : Nat → Except String ChatSuccess} {v : String}
    (hec : cfg.enable_cache = true)
    (hl : cacheLookup cache (cache_key (resolveModelCfg cfg role).model msgs
      (resolveModelCfg cfg role).temperature) = some v) :
    chat cfg msgs role pid jm cache oracle =
      ⟨.ok (v, ⟨strTake (cache_key (resolveModelCfg cfg role).model msgs
          (resolveModelCfg cfg role).temperature) 12,
        (resolveModelCfg cfg role).model, pid, true, none, none, 0⟩),
       cache, 0, []⟩ := by
  simp [chat, hec, hl]

theorem chat_cache_after_ok {cfg : PipelineConfigM} {msgs : List MessageM}
    {role pid : String} {jm : Bool} {cache : List (String × String)}
    {oracle : Nat → Except String ChatSuccess} {t : String} {m : CallMetaM}
    (hec : cfg.enable_cache = true)
    (h : (chat cfg msgs role pid jm cache oracle).result = .ok (t, m)) :
    cacheLookup (chat cfg msgs role pid jm cache oracle).cache
      (cache_key (resolveModelCfg cfg role).model msgs
        (resolveModelCfg cfg role).temperature) = some t := by
  cases hl : cacheLookup cache (cache_key (resolveModelCfg cfg role).model msgs
      (resolveModelCfg cfg role).temperature) with
  | some v =>
    rw [chat_result_hit hec hl] at h ⊢
    injection h with h1
    injection h1 with h2 h3
    rw [h2] at hl
    exact hl
  | none =>
    simp only [chat, hec, if_true, hl] at h ⊢
    cases hgo : chatGo oracle 0 (resolveModelCfg cfg role).retries with
    | mk res cs =>
      cases res with
      | ok ar =>
        simp only [hgo] at h ⊢
        injection h with h1
        injection h1 with h2 h3
        rw [← h2]
        exact cacheLookup_insert _ _ cache
      | error e =>
        simp only [hgo] at h
        cases h

/-- C4: with caching enabled, a second chat call with the same messages and
a role resolving to the same model and temperature (hence the same
fingerprint) after a successful first call returns the first call's text
from the cache with the cached flag set, makes zero network calls, no
sleeps, and leaves the cache unchanged. -/
theorem chat_second_call_cached :
    ∀ (cfg : PipelineConfigM) (msgs : List MessageM) (role1 role2 pid1 pid2 : String)
      (jm1 jm2 : Bool) (cache : List (String × String))
      (oracle1 oracle2 : Nat → Except String ChatSuccess) (t : String) (m : CallMetaM),
      cfg.enable_cache = true →
      (resolveModelCfg cfg role2).model = (resolveModelCfg cfg role1).model →
      (resolveModelCfg cfg role2).temperature = (resolveModelCfg cfg role1).temperature →
      (chat cfg msgs role1 pid1 jm1 cache oracle1).result = .ok (t, m) →
      ∃ m2, chat cfg msgs role2 pid2 jm2
          (chat cfg msgs role1 pid1 jm1 cache oracle1).cache oracle2 =
        ⟨.ok (t, m2), (chat cfg msgs role1 pid1 jm1 cache oracle1).cache, 0, []⟩ ∧
        m2.cached = true := by
  intro cfg msgs role1 role2 pid1 pid2 jm1 jm2 cache oracle1 oracle2 t m hec hm ht h
  have hkey : cache_key (resolveModelCfg cfg role2).model msgs
      (resolveModelCfg cfg role2).temperature =
      cache_key (resolveModelCfg cfg role1).model msgs
        (resolveModelCfg cfg role1).temperature := by
    rw [hm, ht]
  have hl2 : cacheLookup (chat cfg msgs role1 pid1 jm1 cache oracle1).cache
      (cache_key (resolveModelCfg cfg role2).model msgs
        (resolveModelCfg cfg role2).temperature) = some t := by
    rw [hkey]
    exact chat_cache_after_ok hec h
  exact ⟨_, chat_result_hit hec hl2, rfl⟩

/-- Witness for C4 at a concrete configuration and oracle. -/
theorem chat_second_call_cached_witness :
    ∃ t m m2, (chat wCfg wMsgs "primary" "p1" true [] wOracle).result = .ok (t, m) ∧
      chat wCfg wMsgs "primary" "p2" true
          (chat wCfg wMsgs "primary" "p1" true [] wOracle).cache wOracle =
        ⟨.ok (t, m2), (chat wCfg wMsgs "primary" "p1" true [] wOracle).cache, 0, []⟩ ∧
      m2.cached = true := by
  have hok : (chat wCfg wMsgs "primary" "p1" true [] wOracle).result.isOk = true := by
    decide
  cases hr : (chat wCfg wMsgs "primary" "p1" true [] wOracle).result with
  | error e =>
    rw [hr] at hok
    simp [Except.isOk, Except.toBool] at hok
  | ok tm =>
    obtain ⟨t, m⟩ := tm
    obtain ⟨m2, heq, hc⟩ := chat_second_call_cached wCfg wMsgs "primary" "primary"
      "p1" "p2" true true [] wOracle wOracle t m rfl rfl rfl hr
    exact ⟨t, m, m2, rfl, heq, hc⟩

theorem chatGo_calls_le (oracle : Nat → Except String ChatSuccess) :
    ∀ left attempt, (chatGo oracle attempt left).2.1 ≤ left + 1
  | 0, attempt => by
    unfold chatGo
    cases oracle attempt <;> simp
  | left' + 1, attempt => by
    unfold chatGo
    cases oracle attempt with
    | ok r => simp
    | error e =>
      simp only []
      exact Nat.succ_le_succ (chatGo_calls_le oracle left' (attempt + 1))

theorem chatGo_all_fail (oracle : Nat → Except String ChatSuccess)
    (es : Nat → String) :
    ∀ left attempt, (∀ i, attempt ≤ i → i ≤ attempt + left → oracle i = .error (es i)) →
      chatGo oracle attempt left =
        (.error (es (attempt + left)), left + 1,
         (List.range' attempt left).map fun a => 2 ^ a)
  | 0, attempt, h => by
    unfold chatGo
    rw [h attempt (Nat.le_refl attempt) (by omega)]
    rfl
  | left' + 1, attempt, h => by
    unfold chatGo
    rw [h attempt (Nat.le_refl attempt) (by omega)]
    simp only []
    rw [chatGo_all_fail oracle es left' (attempt + 1)
      (fun i h1 h2 => h i (by omega) (by omega))]
    have hn : attempt + 1 + left' = attempt + (left' + 1) := by omega
    rw [hn, List.range'_succ]
    rfl

/-- C5: chat makes at most retries-plus-one network attempts; when the
cache is not consulted successfully and every attempt fails, it makes
exactly retries-plus-one attempts, sleeps two-to-the-attempt seconds after
every failed attempt except the last, leaves the cache untouched, and
raises exactly one aggregated failure wrapping the last underlying error;
and a primary-stage failure propagates out of the orchestrator as a
runtime failure with no report emitted. -/
theorem chat_retry_budget :
    (∀ (cfg : PipelineConfigM) (msgs : List MessageM) (role pid : String)
       (jm : Bool) (cache : List (String × String))
       (oracle : Nat → Except String ChatSuccess),
      (chat cfg msgs role pid jm cache oracle).networkCalls ≤
        (resolveModelCfg cfg role).retries + 1) ∧
    (∀ (cfg : PipelineConfigM) (msgs : List MessageM) (role pid : String)
       (jm : Bool) (cache : List (String × String))
       (oracle : Nat → Except String ChatSuccess) (es : Nat → String),
      (if cfg.enable_cache then
        cacheLookup cache (cache_key (resolveModelCfg cfg role).model msgs
          (resolveModelCfg cfg role).temperature)
       else none) = none →
      (∀ i, i ≤ (resolveModelCfg cfg role).retries → oracle i = .error (es i)) →
      chat cfg msgs role pid jm cache oracle =
        ⟨.error ("LLM call failed after " ++
            toString ((resolveModelCfg cfg role).retries + 1) ++ " attempts: " ++
            es (resolveModelCfg cfg role).retries),
         cache, (resolveModelCfg cfg role).retries + 1,
         (List.range (resolveModelCfg cfg role).retries).map fun a => 2 ^ a⟩) ∧
    (∀ (env : OrchEnv) (t r e : String),
      t.length ≤ env.maxInputChars → pyStrip t ≠ "" →
      env.cancel 0 = false → env.cancel 1 = false →
      (∀ msgs, env.primaryCall msgs = .error e) →
      orchRun env t r = .error (.runtimeError e)) := by
  refine ⟨?_, ?_, ?_⟩
  · intro cfg msgs role pid jm cache oracle
    simp only [chat]
    cases hl : (if cfg.enable_cache then
        cacheLookup cache (cache_key (resolveModelCfg cfg role).model msgs
          (resolveModelCfg cfg role).temperature)
       else none) with
    | some v => simp
    | none =>
      cases hgo : chatGo oracle 0 (resolveModelCfg cfg role).retries with
      | mk res cs =>
        obtain ⟨calls, sleeps⟩ := cs
        have hcalls := chatGo_calls_le oracle (resolveModelCfg cfg role).retries 0
        rw [hgo] at hcalls
        cases res with
        | ok ar => simpa using hcalls
        | error e => simpa using hcalls
  · intro cfg msgs role pid jm cache oracle es hnone hfail
    simp only [chat]
    rw [hnone]
    rw [chatGo_all_fail oracle es (resolveModelCfg cfg role).retries 0
      (fun i h1 h2 => hfail i (by omega))]
    rw [← List.range_eq_range', Nat.zero_add]
  · intro env t r e hlen hblank h0 h1 hp
    unfold orchRun orchExec
    rw [if_neg (not_lt.mpr hlen), if_neg hblank, if_neg (by simp [h0]),
        if_neg (by simp [h1]), hp]

/-- Witness for the all-attempts-fail part of C5 at a concrete
configuration with a two-retry budget. -/
theorem chat_retry_budget_witness :
    chat wCfgNoCache wMsgs "primary" "p1" true [] wFailOracle =
      ⟨.error ("LLM call failed after " ++
          toString ((resolveModelCfg wCfgNoCache "primary").retries + 1) ++
          " attempts: " ++
          ("boom " ++ toString (resolveModelCfg wCfgNoCache "primary").retries)),
       [], (resolveModelCfg wCfgNoCache "primary").retries + 1,
       (List.range (resolveModelCfg wCfgNoCache "primary").retries).map
         fun a => 2 ^ a⟩ :=
  chat_retry_budget.2.1 wCfgNoCache wMsgs "primary" "p1" true [] wFailOracle
    (fun i => "boom " ++ toString i) rfl (fun _ _ => rfl)
